import Mathlib

/-!
TileDB-VCF Python binding: buffer layout and Arrow materialisation

A shallow embedding of `apis/python/src/tiledbvcf/binding/reader.cc`:
the memory-budget split (`Reader::set_memory_budget`), the buffer planner and
pool (`Reader::alloc_buffers`, `Reader::release_buffers`) and the Arrow
materialiser (`Reader::build_arrow_array_from_buffer`,
`Reader::get_results_arrow`).

Conventions.
* C++ integers are `Int`/`Nat`; conversions between `int64_t` and `uint64_t`
  are explicit (`to_uint64`, `to_int64`, `uint64_sub`).
* The two `double` expressions of the source (`mem_budget_mb_ / 3.0` and
  `mem_budget_mb_ / 3.0 * 2.0`) are evaluated on an exact model of binary64
  values (`Double`), with round-to-nearest division.
* Exceptions are values of `Error`; a function that can throw after it has
  changed the reader returns the reader state together with the exception.
* Everything outside the file (the TileDB-VCF engine behind the C API, the
  Arrow allocator and validator, the `build_arrow_array` template of
  `reader.h`) is a field of `World`.
-/

namespace tiledbvcfpy

/-! ## Machine integers -/

/-- Conversion of an integer value to `uint64_t` / `size_t`. -/
def to_uint64 (x : Int) : Nat := (x % 2 ^ 64).toNat

/-- Conversion of a `uint64_t` value to `int64_t` (two's complement). -/
def to_int64 (x : Nat) : Int :=
  if x % 2 ^ 64 < 2 ^ 63 then ((x % 2 ^ 64 : Nat) : Int)
  else ((x % 2 ^ 64 : Nat) : Int) - 2 ^ 64

/-- Subtraction on `uint64_t`: wraps around below zero. -/
def uint64_sub (a b : Nat) : Nat := (a % 2 ^ 64 + 2 ^ 64 - b % 2 ^ 64) % 2 ^ 64

/-! ## Binary64 arithmetic used by the budget split -/

/-- A finite binary64 value, `(-1)^neg * mant / 2 ^ shift`. -/
structure Double where
  neg : Bool
  mant : Nat
  shift : Nat
deriving DecidableEq, Repr

/-- Number of doublings that bring `n` up to `3 * 2 ^ 52`, so that the
quotient by three has a 53-bit significand. -/
def norm_shift : Nat → Nat → Nat
  | 0, _ => 0
  | fuel + 1, n => if 3 * 2 ^ 52 ≤ n then 0 else norm_shift fuel (2 * n) + 1

/-- The binary64 quotient `a / 3.0` of an integer `a` (`|a| < 2 ^ 53`, so the
conversion of `a` to `double` is exact): the significand is the quotient
rounded to nearest (a remainder of one third rounds down, of two thirds up;
there are no ties). -/
def Double.div3 (a : Int) : Double :=
  if a = 0 then ⟨false, 0, 0⟩
  else
    let s := norm_shift 64 a.natAbs
    ⟨decide (a < 0), (a.natAbs * 2 ^ s + 1) / 3, s⟩

/-- The product `d * 2.0`, which is exact. -/
def Double.mul2 (d : Double) : Double := { d with mant := 2 * d.mant }

/-- Conversion `double → int64_t`: truncation toward zero. -/
def Double.to_int64 (d : Double) : Int :=
  if d.neg then -((d.mant / 2 ^ d.shift : Nat) : Int) else ((d.mant / 2 ^ d.shift : Nat) : Int)

/-- Conversion `double → uint64_t`, written `uint64_t(x)` in the source:
truncation toward zero; the result is undefined (`none`) when the truncated
value is negative. -/
def Double.to_uint64 (d : Double) : Option Nat :=
  if d.neg ∧ 0 < d.mant / 2 ^ d.shift then none else some (d.mant / 2 ^ d.shift)

/-- The value handed to `tiledb_vcf_reader_set_memory_budget` by
`Reader::set_memory_budget`: `uint64_t(mem_budget_mb_ / 3.0 * 2.0)`. -/
def engine_budget_mb (mem_budget_mb_ : Int) : Option Nat :=
  (Double.div3 mem_budget_mb_).mul2.to_uint64

/-- The local `budget_mb` of `Reader::alloc_buffers`:
`const int64_t budget_mb = mem_budget_mb_ / 3.0;`. -/
def budget_mb (mem_budget_mb_ : Int) : Int :=
  (Double.div3 mem_budget_mb_).to_int64

/-- The local `alloc_size_bytes` of `Reader::alloc_buffers`, for a non-zero
`num_buffers` (`int64_t` division truncates toward zero). -/
def alloc_size_bytes (mem_budget_mb_ : Int) (num_buffers : Int) : Int :=
  if mem_budget_mb_ = 0 then 10
  else Int.tdiv (budget_mb mem_budget_mb_ * 1024 * 1024) num_buffers

/-! ## Data model -/

/-- The attribute datatype tag `tiledb_vcf_attr_datatype_t` of the C API. The
four tags that `reader.cc` names, and any other tag value with its number. -/
inductive tiledb_vcf_attr_datatype_t
  | TILEDB_VCF_CHAR
  | TILEDB_VCF_UINT8
  | TILEDB_VCF_INT32
  | TILEDB_VCF_FLOAT32
  | other (tag : Int)
deriving DecidableEq, Repr

open tiledb_vcf_attr_datatype_t

/-- A `std::shared_ptr<arrow::DataType>`: `null` is the empty pointer. -/
inductive DataType
  | null
  | utf8
  | uint8
  | int32
  | float32
  | list (value_type : DataType)
deriving DecidableEq, Repr

/-- An `arrow::Buffer`: a raw region of `size` bytes and the bytes it holds
(each below 256). -/
structure Buffer where
  size : Int
  bytes : List Nat
deriving DecidableEq, Repr

/-- The Arrow arrays built by the reader, as the constructor arguments they
are made from. `string` is `arrow::StringArray(length, value_offsets, data,
null_bitmap)`, `list` is `arrow::ListArray(type, length, value_offsets,
values, null_bitmap)`, `primitive` is a fixed-width array. An absent buffer
is a null pointer. -/
inductive ArrowArray
  | primitive (type : DataType) (length : Int) (data : Option Buffer)
      (null_bitmap : Option Buffer)
  | string (length : Int) (value_offsets : Option Buffer) (data : Option Buffer)
      (null_bitmap : Option Buffer)
  | list (type : DataType) (length : Int) (value_offsets : Option Buffer)
      (values : ArrowArray) (null_bitmap : Option Buffer)
deriving DecidableEq, Repr

/-- The `length()` of an array. -/
def ArrowArray.length : ArrowArray → Int
  | .primitive _ n _ _ => n
  | .string n _ _ _ => n
  | .list _ n _ _ _ => n

/-- The `type()` of an array. -/
def ArrowArray.type : ArrowArray → DataType
  | .primitive t _ _ _ => t
  | .string _ _ _ _ => DataType.utf8
  | .list t _ _ _ _ => t

/-- The validity bitmap attached to the array itself. -/
def ArrowArray.null_bitmap : ArrowArray → Option Buffer
  | .primitive _ _ _ v => v
  | .string _ _ _ v => v
  | .list _ _ _ _ v => v

/-- The 32-bit offset number `i` of an offsets region (little-endian, as the
engine writes it through an `int32_t*`); `none` past the bytes held. -/
def Buffer.int32_at (b : Buffer) (i : Nat) : Option Int :=
  match b.bytes.drop (4 * i) with
  | b0 :: b1 :: b2 :: b3 :: _ =>
    let u := b0 + 256 * b1 + 65536 * b2 + 16777216 * b3
    some (if u < 2 ^ 31 then (u : Int) else (u : Int) - 2 ^ 32)
  | _ => none

/-- Entry `i` of a string array (`arrow::StringArray::GetString`): the bytes
of the data region from offset `i` up to offset `i + 1`. -/
def ArrowArray.GetString : ArrowArray → Nat → Option (List Nat)
  | .string _ (some offs) (some data) _, i =>
    match offs.int32_at i, offs.int32_at (i + 1) with
    | some o, some o' => some ((data.bytes.drop o.toNat).take (o' - o).toNat)
    | _, _ => none
  | _, _ => none

/-- Length of entry `j` of a list array (`arrow::ListArray::value_length`). -/
def ArrowArray.value_length : ArrowArray → Nat → Option Int
  | .list _ _ (some offs) _ _, j =>
    match offs.int32_at j, offs.int32_at (j + 1) with
    | some o, some o' => some (o' - o)
    | _, _ => none
  | _, _ => none

/-- The child array of a list array (`arrow::ListArray::values`). -/
def ArrowArray.values : ArrowArray → Option ArrowArray
  | .list _ _ _ v _ => some v
  | _ => none

/-- The struct `BufferInfo` of `reader.h`: one Buffer Set. Null shared
pointers are `none` (`DataType.null` for the two datatypes). -/
structure BufferInfo where
  attr_name : String
  datatype : tiledb_vcf_attr_datatype_t
  arrow_datatype : DataType
  arrow_array_datatype : DataType
  data : Option Buffer
  offsets : Option Buffer
  list_offsets : Option Buffer
  bitmap : Option Buffer
  array : Option ArrowArray
deriving DecidableEq, Repr

/-- What `tiledb_vcf_reader_get_attribute_type` writes through its four
output arguments. -/
structure AttrType where
  datatype : tiledb_vcf_attr_datatype_t
  var_len : Int
  nullable : Int
  list : Int
deriving DecidableEq, Repr

/-- An `arrow::Field`. -/
structure Field where
  name : String
  type : DataType
deriving DecidableEq, Repr

/-- An `arrow::Table` as made by `arrow::Table::Make(schema, arrays, num_rows)`. -/
structure Table where
  schema : List Field
  columns : List ArrowArray
  num_rows : Int
deriving DecidableEq, Repr

/-- The exceptions of `reader.cc` (all `std::runtime_error`). -/
inductive Error
  /-- Thrown by `check_error` with the message of the engine. -/
  | engine (msg : String)
  /-- Thrown by `to_numpy_dtype`: "TileDB-VCF-Py: Error converting to numpy
  dtype; unhandled datatype " followed by the tag. -/
  | unhandled_numpy_datatype (tag : tiledb_vcf_attr_datatype_t)
  /-- Thrown by `to_arrow_datatype`: "TileDB-VCF-Py: Error converting to arrow
  datatype; unhandled datatype " followed by the tag. -/
  | unhandled_arrow_datatype (tag : tiledb_vcf_attr_datatype_t)
  /-- Thrown by `build_arrow_array_from_buffer`: "TileDB-VCF-Py: unknown
  datatype for arrow creation: " followed by the tag. -/
  | unknown_arrow_creation_datatype (tag : tiledb_vcf_attr_datatype_t)
  /-- A failed `arrow::AllocateBuffer`, with the message of the throw site. -/
  | allocation_failed (msg : String)
  /-- Thrown by `check_arrow_error`: "TileDB-VCF-Py Arrow error: " followed
  by the status message. -/
  | arrow_error (msg : String)
  /-- Thrown by `get_results_arrow`: "TileDB-VCF-Py: Error converting to
  Arrow; null Python object." -/
  | null_python_object
deriving DecidableEq, Repr

/-- Everything `reader.cc` calls but does not define. The engine calls give
the message `check_error` would throw when their return code is not
`TILEDB_VCF_OK`. -/
structure World where
  /-- The engine call `tiledb_vcf_reader_get_attribute_type`. -/
  get_attribute_type : String → Except String AttrType
  /-- The engine call `tiledb_vcf_reader_reset_buffers`: its error, if any. -/
  reset_buffers : Option String
  /-- The engine call `tiledb_vcf_reader_set_memory_budget`: its error, if any. -/
  set_memory_budget : Option Nat → Option String
  /-- The engine call `tiledb_vcf_reader_get_result_size`:
  `(num_offsets, num_data_elements, num_data_bytes)`. -/
  get_result_size : String → Except String (Int × Int × Int)
  /-- The engine call `tiledb_vcf_reader_get_result_num_records`. -/
  get_result_num_records : Except String Int
  /-- Whether `arrow::AllocateBuffer` succeeds for a size. -/
  alloc_ok : Int → Bool
  /-- The bytes found in a freshly allocated region. -/
  alloc_bytes : Int → List Nat
  /-- The `datatype` member of a value-initialised `BufferInfo`. -/
  value_init_datatype : tiledb_vcf_attr_datatype_t
  /-- The template `Reader::build_arrow_array<T>` of `reader.h`, for the
  three numeric datatypes. -/
  build_arrow_array : BufferInfo → Nat → Nat → Nat → ArrowArray
  /-- Arrow's `table->Validate()`: the status message when not ok. -/
  table_validate : Table → Option String
  /-- Whether `arrow::py::wrap_table` returns a null object. -/
  wrap_table_null : Table → Bool

/-- The engine handle `tiledb_vcf_reader_t` behind `ptr`, as far as the
binding writes to it. -/
structure tiledb_vcf_reader_t where
  /-- The value last received through `tiledb_vcf_reader_set_memory_budget`
  (`none`: no defined value yet). -/
  memory_budget_mb : Option Nat
deriving DecidableEq, Repr

/-- The members of the class `Reader` that the embedded functions use. -/
structure Reader where
  ptr : tiledb_vcf_reader_t
  attributes_ : List String
  mem_budget_mb_ : Int
  buffers_ : List BufferInfo
deriving DecidableEq, Repr

/-- The constructor `Reader::Reader()`: a budget of `2 * 1024` MB. -/
def Reader.new : Reader :=
  { ptr := { memory_budget_mb := none }, attributes_ := [], mem_budget_mb_ := 2 * 1024,
    buffers_ := [] }

/-- A `py::dtype`, by its `itemsize()`. -/
structure dtype where
  itemsize : Int
deriving DecidableEq, Repr

/-! ## Type mapper -/

/-- The function `Reader::to_numpy_dtype`. -/
def to_numpy_dtype (datatype : tiledb_vcf_attr_datatype_t) : Except Error dtype :=
  match datatype with
  | TILEDB_VCF_CHAR => .ok ⟨1⟩
  | TILEDB_VCF_UINT8 => .ok ⟨1⟩
  | TILEDB_VCF_INT32 => .ok ⟨4⟩
  | TILEDB_VCF_FLOAT32 => .ok ⟨4⟩
  | other tag => .error (Error.unhandled_numpy_datatype (other tag))

/-- The function `Reader::to_arrow_datatype`. -/
def to_arrow_datatype (datatype : tiledb_vcf_attr_datatype_t) : Except Error DataType :=
  match datatype with
  | TILEDB_VCF_CHAR => .ok DataType.utf8
  | TILEDB_VCF_UINT8 => .ok DataType.uint8
  | TILEDB_VCF_INT32 => .ok DataType.int32
  | TILEDB_VCF_FLOAT32 => .ok DataType.float32
  | other tag => .error (Error.unhandled_arrow_datatype (other tag))

/-! ## Array materialiser -/

/-- The function `Reader::build_arrow_array_from_buffer`. Its three count
arguments are `const uint64_t&`; the Arrow constructors take `int64_t`
lengths. -/
def build_arrow_array_from_buffer (w : World) (buffer : BufferInfo)
    (count num_offsets num_data_elements : Nat) : Except Error ArrowArray :=
  match buffer.datatype with
  | TILEDB_VCF_CHAR =>
    match buffer.list_offsets with
    | some list_offsets =>
      let data_array :=
        ArrowArray.string (to_int64 (uint64_sub num_offsets 1)) buffer.offsets buffer.data none
      .ok (ArrowArray.list (DataType.list buffer.arrow_datatype) (to_int64 count)
        (some list_offsets) data_array buffer.bitmap)
    | none =>
      .ok (ArrowArray.string (to_int64 count) buffer.offsets buffer.data buffer.bitmap)
  | TILEDB_VCF_UINT8 => .ok (w.build_arrow_array buffer count num_offsets num_data_elements)
  | TILEDB_VCF_INT32 => .ok (w.build_arrow_array buffer count num_offsets num_data_elements)
  | TILEDB_VCF_FLOAT32 => .ok (w.build_arrow_array buffer count num_offsets num_data_elements)
  | other tag => .error (Error.unknown_arrow_creation_datatype (other tag))

/-! ## Buffer pool -/

/-- The call `arrow::AllocateBuffer(size)`: a region of `size` bytes, or a
failure. -/
def AllocateBuffer (w : World) (size : Int) : Option Buffer :=
  if w.alloc_ok size then some { size := size, bytes := w.alloc_bytes size } else none

/-- The element `buffers_.emplace_back()` creates: every pointer null, the
name empty. -/
def BufferInfo.value_init (w : World) : BufferInfo :=
  { attr_name := "", datatype := w.value_init_datatype, arrow_datatype := DataType.null,
    arrow_array_datatype := DataType.null, data := none, offsets := none,
    list_offsets := none, bitmap := none, array := none }

/-- The function `Reader::release_buffers`. -/
def release_buffers (w : World) (r : Reader) : Reader × Except Error Unit :=
  match w.reset_buffers with
  | some msg => (r, .error (Error.engine msg))
  | none => ({ r with buffers_ := [] }, .ok ())

/-- The first loop of `Reader::alloc_buffers`: the count `num_buffers` of the
regions required, accumulated over the attributes. -/
def count_buffers (w : World) : List String → Int → Except Error Int
  | [], num_buffers => .ok num_buffers
  | attr :: rest, num_buffers =>
    match w.get_attribute_type attr with
    | .error msg => .error (Error.engine msg)
    | .ok t =>
      let num_buffers := num_buffers + 1
      let num_buffers := num_buffers + (if t.var_len ≠ 0 then 1 else 0)
      let num_buffers := num_buffers + (if t.nullable ≠ 0 then 1 else 0)
      let num_buffers := num_buffers + (if t.list ≠ 0 then 1 else 0)
      count_buffers w rest num_buffers

/-- A pass of the second loop of `Reader::alloc_buffers` from the element
`buffers_.back()` on: the element as the pass leaves it, or the element as it
stands together with the exception thrown. -/
abbrev Filled := Except (BufferInfo × Error) BufferInfo

/-- Lines 318-324: the values region. -/
def alloc_data (w : World) (alloc_size_bytes : Int) (buffer : BufferInfo) : Filled :=
  match AllocateBuffer w alloc_size_bytes with
  | none =>
    .error (buffer,
      Error.allocation_failed "TileDB-VCF-Py: nullable bitmap buffer allocation failed")
  | some maybe_buffer => .ok { buffer with data := some maybe_buffer }

/-- Lines 326-339: the value-offsets region. -/
def alloc_offsets (w : World) (alloc_size_bytes : Int) (t : AttrType)
    (buffer : BufferInfo) : Filled :=
  if t.var_len = 1 then
    match AllocateBuffer w alloc_size_bytes with
    | none =>
      .error (buffer, Error.allocation_failed "TileDB-VCF-Py: offset buffer allocation failed")
    | some maybe_buffer =>
      let buffer := { buffer with offsets := some maybe_buffer }
      if t.datatype ≠ TILEDB_VCF_CHAR then
        .ok { buffer with arrow_array_datatype := DataType.list buffer.arrow_array_datatype }
      else .ok buffer
  else .ok buffer

/-- Lines 341-352: the list-offsets region. -/
def alloc_list_offsets (w : World) (alloc_size_bytes : Int) (t : AttrType)
    (buffer : BufferInfo) : Filled :=
  if t.list = 1 then
    match AllocateBuffer w alloc_size_bytes with
    | none =>
      .error (buffer,
        Error.allocation_failed "TileDB-VCF-Py: list offset buffer allocation failed")
    | some maybe_buffer =>
      let buffer := { buffer with list_offsets := some maybe_buffer }
      .ok { buffer with arrow_array_datatype := DataType.list buffer.arrow_array_datatype }
  else .ok buffer

/-- Lines 354-362: the validity bitmap region. -/
def alloc_bitmap (w : World) (alloc_size_bytes : Int) (t : AttrType)
    (buffer : BufferInfo) : Filled :=
  if t.nullable = 1 then
    match AllocateBuffer w alloc_size_bytes with
    | none =>
      .error (buffer,
        Error.allocation_failed "TileDB-VCF-Py: nullable bitmap buffer allocation failed")
    | some maybe_buffer => .ok { buffer with bitmap := some maybe_buffer }
  else .ok buffer

/-- The speculative element count of line 316:
`size_t count = alloc_size_bytes / dtype.itemsize();`. -/
def speculative_count (alloc_size_bytes : Int) (d : dtype) : Nat :=
  to_uint64 (Int.tdiv alloc_size_bytes d.itemsize)

/-- Line 364: the speculative array. -/
def set_array (w : World) (count : Nat) (buffer : BufferInfo) : Filled :=
  match build_arrow_array_from_buffer w buffer count count count with
  | .error e => .error (buffer, e)
  | .ok array => .ok { buffer with array := some array }

/-- The body of the second loop of `Reader::alloc_buffers` after
`buffers_.emplace_back()` (lines 309-364), for an attribute of type `t`. -/
def fill_buffer (w : World) (alloc_size_bytes : Int) (attr : String) (t : AttrType) : Filled :=
  let buffer := { BufferInfo.value_init w with attr_name := attr }
  match to_numpy_dtype t.datatype with
  | .error e => .error (buffer, e)
  | .ok dtype =>
    let buffer := { buffer with datatype := t.datatype }
    match to_arrow_datatype t.datatype with
    | .error e => .error (buffer, e)
    | .ok a =>
      let buffer := { buffer with arrow_datatype := a, arrow_array_datatype := a }
      let count := speculative_count alloc_size_bytes dtype
      alloc_data w alloc_size_bytes buffer >>= alloc_offsets w alloc_size_bytes t >>=
        alloc_list_offsets w alloc_size_bytes t >>= alloc_bitmap w alloc_size_bytes t >>=
        set_array w count

/-- The second loop of `Reader::alloc_buffers`: `buffers_` after the loop and
the exception that ended it, if any. -/
def alloc_loop (w : World) (alloc_size_bytes : Int) :
    List String → List BufferInfo → List BufferInfo × Except Error Unit
  | [], buffers_ => (buffers_, .ok ())
  | attr :: rest, buffers_ =>
    match w.get_attribute_type attr with
    | .error msg => (buffers_, .error (Error.engine msg))
    | .ok t =>
      match fill_buffer w alloc_size_bytes attr t with
      | .error (back, e) => (buffers_ ++ [back], .error e)
      | .ok back => alloc_loop w alloc_size_bytes rest (buffers_ ++ [back])

/-- The function `Reader::alloc_buffers`: the reader it leaves and the
exception it throws, if any. -/
def alloc_buffers (w : World) (r : Reader) (release_buffs : Bool) :
    Reader × Except Error Unit :=
  match (if release_buffs then release_buffers w r else (r, .ok ())) with
  | (r, .error e) => (r, .error e)
  | (r, .ok ()) =>
    match count_buffers w r.attributes_ 0 with
    | .error e => (r, .error e)
    | .ok num_buffers =>
      if num_buffers = 0 then (r, .ok ())
      else
        let out := alloc_loop w (alloc_size_bytes r.mem_budget_mb_ num_buffers)
          r.attributes_ r.buffers_
        ({ r with buffers_ := out.1 }, out.2)

/-! ## Budget coordinator -/

/-- The function `Reader::set_memory_budget` (`memory_mb` is an `int32_t`). -/
def set_memory_budget (w : World) (r : Reader) (memory_mb : Int) :
    Reader × Except Error Unit :=
  let r := { r with mem_budget_mb_ := memory_mb }
  match w.set_memory_budget (engine_budget_mb r.mem_budget_mb_) with
  | some msg => (r, .error (Error.engine msg))
  | none => ({ r with ptr := { memory_budget_mb := engine_budget_mb r.mem_budget_mb_ } }, .ok ())

/-! ## Result table -/

/-- The function `Reader::result_num_records`. -/
def result_num_records (w : World) : Except Error Int :=
  match w.get_result_num_records with
  | .error msg => .error (Error.engine msg)
  | .ok result => .ok result

/-- The loop of `Reader::get_results_arrow`: the vectors `fields` and `arrays`
extended by one entry per Buffer Set. -/
def results_loop (w : World) (num_records : Int) :
    List BufferInfo → List Field → List ArrowArray → Except Error (List Field × List ArrowArray)
  | [], fields, arrays => .ok (fields, arrays)
  | buffer :: rest, fields, arrays =>
    let field : Field := ⟨buffer.attr_name, buffer.arrow_array_datatype⟩
    let fields := fields ++ [field]
    match w.get_result_size buffer.attr_name with
    | .error msg => .error (Error.engine msg)
    | .ok (num_offsets, num_data_elements, _) =>
      match build_arrow_array_from_buffer w buffer (to_uint64 num_records)
          (to_uint64 num_offsets) (to_uint64 num_data_elements) with
      | .error e => .error e
      | .ok array => results_loop w num_records rest fields (arrays ++ [array])

/-- The function `Reader::get_results_arrow`: the table that the returned
Python object wraps. -/
def get_results_arrow (w : World) (r : Reader) : Except Error Table :=
  match result_num_records w with
  | .error e => .error e
  | .ok num_records =>
    match results_loop w num_records r.buffers_ [] [] with
    | .error e => .error e
    | .ok (fields, arrays) =>
      let table : Table := ⟨fields, arrays, num_records⟩
      match w.table_validate table with
      | some msg => .error (Error.arrow_error msg)
      | none =>
        if w.wrap_table_null table then .error Error.null_python_object
        else .ok table

/-! ## Observations on a Buffer Set -/

/-- The raw regions a Buffer Set holds: values, value offsets, list offsets,
validity, each when its pointer is not null. -/
def BufferInfo.regions (b : BufferInfo) : List Buffer :=
  b.data.toList ++ b.offsets.toList ++ b.list_offsets.toList ++ b.bitmap.toList

/-- The four datatype tags the type mapper knows. -/
def supported (d : tiledb_vcf_attr_datatype_t) : Bool :=
  match d with
  | other _ => false
  | _ => true

/-- The flags of an attribute type are the C booleans 0 and 1. -/
def AttrType.flags01 (t : AttrType) : Prop :=
  (t.var_len = 0 ∨ t.var_len = 1) ∧ (t.nullable = 0 ∨ t.nullable = 1) ∧
    (t.list = 0 ∨ t.list = 1)

instance (t : AttrType) : Decidable t.flags01 := by
  unfold AttrType.flags01; infer_instance

/-- The element `buffers_.back()` of the second loop right after line 310
(`buffer.attr_name = attr`): only the name is set. -/
def BufferInfo.named (w : World) (attr : String) : BufferInfo :=
  { BufferInfo.value_init w with attr_name := attr }

/-- The Buffer Set `b` is what a completed pass of the allocation loop makes
for the attribute `attr` when every region gets `sz` bytes. -/
def Allocated (w : World) (sz : Int) (attr : String) (b : BufferInfo) : Prop :=
  ∃ t, w.get_attribute_type attr = .ok t ∧ fill_buffer w sz attr t = .ok b

/-- The engine reports a type with a supported datatype for the attribute. -/
def Plannable (w : World) (attr : String) : Prop :=
  ∃ t, w.get_attribute_type attr = .ok t ∧ supported t.datatype = true

/-- The array `arr` is the column `Reader::get_results_arrow` builds for the
Buffer Set `b`: the engine reports the result sizes of the attribute and the
array is built from the record count and these sizes. -/
def Column (w : World) (num_records : Int) (b : BufferInfo) (arr : ArrowArray) : Prop :=
  ∃ num_offsets num_data_elements num_data_bytes,
    w.get_result_size b.attr_name = .ok (num_offsets, num_data_elements, num_data_bytes) ∧
    build_arrow_array_from_buffer w b (to_uint64 num_records) (to_uint64 num_offsets)
      (to_uint64 num_data_elements) = .ok arr

/-! ## A sample session

A small engine with four attributes, used to run the functions on concrete
inputs. -/

/-- The bytes of a list of 32-bit offsets, little-endian. -/
def int32_bytes (xs : List Nat) : List Nat :=
  xs.flatMap (fun x => [x % 256, x / 256 % 256, x / 65536 % 256, x / 16777216 % 256])

/-- The bytes of an ASCII string. -/
def ascii (s : String) : List Nat := s.toList.map Char.toNat

/-- An engine that knows the attributes `alleles` (variable-length list of
char), `pos` (int32), `fmt_GT` (variable-length nullable int32) and `flag`
(an unsupported datatype tag 4), reports three result records, and an
allocator that serves every non-negative size. -/
def sample_world : World :=
  { get_attribute_type := fun a =>
      if a = "alleles" then .ok ⟨TILEDB_VCF_CHAR, 1, 0, 1⟩
      else if a = "pos" then .ok ⟨TILEDB_VCF_INT32, 0, 0, 0⟩
      else if a = "fmt_GT" then .ok ⟨TILEDB_VCF_INT32, 1, 1, 0⟩
      else if a = "flag" then .ok ⟨other 4, 0, 0, 0⟩
      else .error "no such attribute",
    reset_buffers := none,
    set_memory_budget := fun _ => none,
    get_result_size := fun _ => .ok (6, 9, 9),
    get_result_num_records := .ok 3,
    alloc_ok := fun n => decide (0 ≤ n),
    alloc_bytes := fun _ => [],
    value_init_datatype := TILEDB_VCF_CHAR,
    build_arrow_array := fun b count _ _ =>
      ArrowArray.primitive b.arrow_array_datatype (to_int64 count) b.data b.bitmap,
    table_validate := fun _ => none,
    wrap_table_null := fun _ => false }

/-- A session on the sample engine that asks for three attributes, with the
default budget. -/
def sample_reader : Reader :=
  { Reader.new with attributes_ := ["alleles", "pos", "fmt_GT"] }

/-- A Buffer Set of a char attribute with the given regions. -/
def char_buffer (name : String) (data offsets list_offsets bitmap : Option Buffer) : BufferInfo :=
  { attr_name := name, datatype := TILEDB_VCF_CHAR, arrow_datatype := DataType.utf8,
    arrow_array_datatype :=
      if list_offsets.isSome then DataType.list DataType.utf8 else DataType.utf8,
    data := data, offsets := offsets, list_offsets := list_offsets, bitmap := bitmap,
    array := none }

/-! ## The read cycle -/

/-- The status `tiledb_vcf_read_status_t` of the C API: the two values
`Reader::read` accepts, and any other value with its number. -/
inductive tiledb_vcf_read_status_t
  | TILEDB_VCF_COMPLETED
  | TILEDB_VCF_INCOMPLETE
  | unhandled (code : Int)
deriving DecidableEq, Repr

/-- The exceptions `Reader::read` and `Reader::set_buffers` add to those of
`Error`. -/
inductive ReadError
  /-- Thrown by `read`: "TileDB-VCF-Py: Error finding AF filter." -/
  | finding_af_filter
  /-- An exception of `alloc_buffers`, or of `check_error`. -/
  | base (e : Error)
  /-- The crash of `set_buffers` on a Buffer Set whose `data` pointer is
  null (`data->size()`); the embedding stops there. -/
  | null_data
  /-- Thrown by `read`: "TileDB-VCF-Py: Error submitting read; unhandled
  read status." -/
  | unhandled_read_status
deriving DecidableEq, Repr

/-- The engine calls of `Reader::read` and `Reader::set_buffers`, next to
those of `World`. -/
structure ReadWorld extends World where
  /-- The engine call `tiledb_vcf_reader_get_af_filter_exists`: the flag it
  writes, `none` when it returns `TILEDB_VCF_ERR`. -/
  get_af_filter_exists : Option Bool
  /-- The engine call `tiledb_vcf_reader_set_buffer_values`, by attribute
  name and byte size: its error, if any. -/
  set_buffer_values : String → Int → Option String
  /-- The engine call `tiledb_vcf_reader_set_buffer_offsets`. -/
  set_buffer_offsets : String → Int → Option String
  /-- The engine call `tiledb_vcf_reader_set_buffer_list_offsets`. -/
  set_buffer_list_offsets : String → Int → Option String
  /-- The engine call `tiledb_vcf_reader_set_buffer_validity_bitmap`. -/
  set_buffer_validity_bitmap : String → Int → Option String
  /-- The engine call `tiledb_vcf_reader_read`: the pool with the regions as
  the engine has written them in place, or its error. -/
  reader_read : List BufferInfo → Except String (List BufferInfo)
  /-- The engine call `tiledb_vcf_reader_get_status`. -/
  get_status : Except String tiledb_vcf_read_status_t

/-- Lines 225-232 of `Reader::read`: without an AF filter, every attribute
`info_TILEDB_IAF` makes the engine call
`tiledb_vcf_reader_set_af_filter(reader, ">=0")` (its return value is not
looked at) and turns `af_filter_enabled` on. -/
def enable_af_filter (attributes_ : List String) (af_filter_enabled : Bool) : Bool :=
  if !af_filter_enabled then
    attributes_.foldl
      (fun af_filter_enabled attr =>
        if attr = "info_TILEDB_IAF" then true else af_filter_enabled)
      af_filter_enabled
  else af_filter_enabled

/-- Lines 235-240 of `Reader::read`: the flags `(add_alleles, add_GT)` after
the loop over the attributes. -/
def missing_af_attributes (attributes_ : List String) : Bool × Bool :=
  attributes_.foldl
    (fun flags attr =>
      (flags.1 && decide (attr ≠ "alleles"), flags.2 && decide (attr ≠ "fmt_GT")))
    (true, true)

/-- Lines 233-247 of `Reader::read`: the attribute list after the
augmentation. -/
def augment_attributes (attributes_ : List String) (af_filter_enabled : Bool) : List String :=
  if af_filter_enabled then
    let flags := missing_af_attributes attributes_
    let attributes_ := if flags.1 then attributes_ ++ ["alleles"] else attributes_
    if flags.2 then attributes_ ++ ["fmt_GT"] else attributes_
  else attributes_

/-- The engine calls `Reader::set_buffers` makes for one Buffer Set. -/
def set_buffer (w : ReadWorld) (buff : BufferInfo) : Except ReadError Unit :=
  match buff.data with
  | none => .error ReadError.null_data
  | some data =>
    match w.set_buffer_values buff.attr_name data.size with
    | some msg => .error (ReadError.base (Error.engine msg))
    | none =>
      match buff.offsets.bind (fun offsets => w.set_buffer_offsets buff.attr_name offsets.size) with
      | some msg => .error (ReadError.base (Error.engine msg))
      | none =>
        match buff.list_offsets.bind
            (fun list_offsets => w.set_buffer_list_offsets buff.attr_name list_offsets.size) with
        | some msg => .error (ReadError.base (Error.engine msg))
        | none =>
          match buff.bitmap.bind
              (fun bitmap => w.set_buffer_validity_bitmap buff.attr_name bitmap.size) with
          | some msg => .error (ReadError.base (Error.engine msg))
          | none => .ok ()

/-- The function `Reader::set_buffers`. -/
def set_buffers (w : ReadWorld) : List BufferInfo → Except ReadError Unit
  | [] => .ok ()
  | buff :: rest =>
    match set_buffer w buff with
    | .error e => .error e
    | .ok () => set_buffers w rest

/-- The function `Reader::read`: the reader it leaves and the exception it
throws, if any. -/
def read (w : ReadWorld) (r : Reader) (release_buffs : Bool) : Reader × Except ReadError Unit :=
  match w.get_af_filter_exists with
  | none => (r, .error ReadError.finding_af_filter)
  | some af_filter_enabled =>
    let af_filter_enabled := enable_af_filter r.attributes_ af_filter_enabled
    let r := { r with attributes_ := augment_attributes r.attributes_ af_filter_enabled }
    match alloc_buffers w.toWorld r release_buffs with
    | (r, .error e) => (r, .error (ReadError.base e))
    | (r, .ok ()) =>
      match set_buffers w r.buffers_ with
      | .error e => (r, .error e)
      | .ok () =>
        match w.reader_read r.buffers_ with
        | .error msg => (r, .error (ReadError.base (Error.engine msg)))
        | .ok written =>
          let r := { r with buffers_ := written }
          match w.get_status with
          | .error msg => (r, .error (ReadError.base (Error.engine msg)))
          | .ok status =>
            if status ≠ tiledb_vcf_read_status_t.TILEDB_VCF_COMPLETED ∧
                status ≠ tiledb_vcf_read_status_t.TILEDB_VCF_INCOMPLETE then
              (r, .error ReadError.unhandled_read_status)
            else (r, .ok ())

/-! ## Further observations -/

/-- The augmentation of the attribute list in words: when an AF filter
exists or the list names `info_TILEDB_IAF`, the list followed by `alleles` if
it was absent and then by `fmt_GT` if it was absent; the list itself
otherwise. -/
def augmentation_described (af_filter_exists : Bool) (attrs : List String) : List String :=
  if af_filter_exists = true ∨ "info_TILEDB_IAF" ∈ attrs then
    attrs ++ (if "alleles" ∈ attrs then [] else ["alleles"])
      ++ (if "fmt_GT" ∈ attrs then [] else ["fmt_GT"])
  else attrs

/-- The length of the inner string array of the speculative array a Buffer
Set stores, when that array is a list array. -/
def BufferInfo.speculative_inner_length (b : BufferInfo) : Option Int :=
  (b.array.bind ArrowArray.values).map ArrowArray.length

/-- The bytes of the offsets region an array of `length` entries reads:
`length + 1` offsets of 32 bits. -/
def offsets_bytes (length : Int) : Int := 4 * (length + 1)

/-- The bytes of all raw regions of a list of Buffer Sets. -/
def pool_bytes (bufs : List BufferInfo) : Int :=
  (bufs.map (fun b => (b.regions.map Buffer.size).sum)).sum

/-- The pool the second loop of `alloc_buffers` starts from: empty after a
release that the engine accepted, the previous pool otherwise. -/
def kept_pool (w : World) (r : Reader) (release_buffs : Bool) : List BufferInfo :=
  if release_buffs = true ∧ w.reset_buffers = none then [] else r.buffers_

/-- The sample engine with the calls of the read cycle: no AF filter, every
call accepted, the read completed. -/
def sample_read_world : ReadWorld :=
  { sample_world with
    get_af_filter_exists := some false,
    set_buffer_values := fun _ _ => none,
    set_buffer_offsets := fun _ _ => none,
    set_buffer_list_offsets := fun _ _ => none,
    set_buffer_validity_bitmap := fun _ _ => none,
    reader_read := fun pool => .ok pool,
    get_status := .ok tiledb_vcf_read_status_t.TILEDB_VCF_COMPLETED }

/-! ## Arithmetic of the budget split -/

theorem norm_shift_two_le (f n : Nat) (h : n ≤ 2 ^ 31) : 2 ≤ norm_shift (f + 2) n := by
  have h1 : ¬ (3 * 2 ^ 52 ≤ n) := by norm_num at h ⊢; omega
  have h2 : ¬ (3 * 2 ^ 52 ≤ 2 * n) := by norm_num at h ⊢; omega
  simp only [norm_shift, h1, h2, if_false]
  omega

theorem round_div3_trunc (a P : Nat) (hP : 2 ≤ P) : (a * P + 1) / 3 / P = a / 3 := by
  rw [Nat.div_div_eq_div_mul]
  have hk : a = 3 * (a / 3) + a % 3 := by omega
  have hr : a % 3 < 3 := Nat.mod_lt _ (by norm_num)
  generalize a / 3 = k at hk ⊢
  generalize a % 3 = r at hk hr
  have e1 : a * P = 3 * (k * P) + r * P := by rw [hk]; ring
  have hrP : r * P ≤ 2 * P := Nat.mul_le_mul_right P (by omega)
  have e2 : k * (3 * P) = 3 * (k * P) := by ring
  have e3 : (k + 1) * (3 * P) = 3 * (k * P) + 3 * P := by ring
  apply Nat.div_eq_of_lt_le
  · rw [e2, e1]; omega
  · rw [e3, e1]; omega

theorem round_div3_twice_trunc (a P : Nat) (hP : 4 ≤ P) :
    2 * ((a * P + 1) / 3) / P = 2 * a / 3 := by
  have hk : a = 3 * (a / 3) + a % 3 := by omega
  have hr : a % 3 < 3 := Nat.mod_lt _ (by norm_num)
  have key : 2 * a / 3 = 2 * (a / 3) + 2 * (a % 3) / 3 := by omega
  rw [key]
  generalize a / 3 = k at hk ⊢
  generalize a % 3 = r at hk hr ⊢
  have e1 : a * P = 3 * (k * P) + r * P := by rw [hk]; ring
  have e3 : (2 * k + 2 * r / 3) * P = 2 * (k * P) + (2 * r / 3) * P := by ring
  have e4 : (2 * k + 2 * r / 3 + 1) * P = 2 * (k * P) + (2 * r / 3) * P + P := by ring
  apply Nat.div_eq_of_lt_le
  · rw [e3, e1]; interval_cases r <;> simp <;> omega
  · rw [e4, e1]; interval_cases r <;> simp <;> omega

theorem four_le_two_pow_norm_shift (n : Nat) (h : n ≤ 2 ^ 31) : 4 ≤ 2 ^ norm_shift 64 n := by
  have h2 : 2 ≤ norm_shift 64 n := norm_shift_two_le 62 n h
  calc 4 = 2 ^ 2 := by norm_num
    _ ≤ 2 ^ norm_shift 64 n := Nat.pow_le_pow_right (by norm_num) h2

theorem natAbs_le_of_int32 (mb : Int) (hlo : -2 ^ 31 ≤ mb) (hhi : mb < 2 ^ 31) :
    mb.natAbs ≤ 2 ^ 31 := by
  norm_num at hlo hhi ⊢
  omega

/-- On `int32_t` budgets the binary64 evaluation of `mem_budget_mb_ / 3.0`
followed by the conversion to `int64_t` is the integer quotient truncated
toward zero. -/
theorem budget_mb_eq_tdiv (mb : Int) (hlo : -2 ^ 31 ≤ mb) (hhi : mb < 2 ^ 31) :
    budget_mb mb = Int.tdiv mb 3 := by
  unfold budget_mb Double.div3 Double.to_int64
  by_cases h0 : mb = 0
  · subst h0; simp
  · simp only [h0, if_false]
    have hP := four_le_two_pow_norm_shift _ (natAbs_le_of_int32 mb hlo hhi)
    rw [round_div3_trunc _ _ (by omega)]
    by_cases hneg : mb < 0
    · simp only [hneg, decide_True, if_true]
      have e : mb = -((mb.natAbs : Nat) : Int) := by omega
      conv_rhs => rw [e]
      rw [Int.neg_tdiv]
      rfl
    · simp only [hneg, decide_False]
      have e : mb = ((mb.natAbs : Nat) : Int) := by omega
      conv_rhs => rw [e]
      rfl

/-- On non-negative `int32_t` budgets the binary64 evaluation of
`mem_budget_mb_ / 3.0 * 2.0` followed by the conversion to `uint64_t` is
`floor (2 * mb / 3)`. -/
theorem engine_budget_mb_eq (mb : Int) (hlo : 0 ≤ mb) (hhi : mb < 2 ^ 31) :
    engine_budget_mb mb = some ((2 * mb / 3).toNat) := by
  unfold engine_budget_mb Double.div3 Double.to_uint64 Double.mul2
  by_cases h0 : mb = 0
  · subst h0; simp
  · have hneg : ¬ mb < 0 := by omega
    simp only [h0, if_false, hneg, decide_False, Bool.false_eq_true, false_and]
    have hP := four_le_two_pow_norm_shift _ (natAbs_le_of_int32 mb (by omega) hhi)
    rw [round_div3_twice_trunc _ _ hP]
    congr 1
    omega

/-- For an `int32_t` budget the product `budget_mb * 1024 * 1024` stays far
inside the range of `int64_t`: the arithmetic of `alloc_size_bytes` does not
overflow. -/
theorem budget_bytes_in_int64 (mb : Int) (hlo : -2 ^ 31 ≤ mb) (hhi : mb < 2 ^ 31) :
    -2 ^ 63 < budget_mb mb * 1024 * 1024 ∧ budget_mb mb * 1024 * 1024 < 2 ^ 63 := by
  rw [budget_mb_eq_tdiv mb hlo hhi]
  norm_num at hlo hhi ⊢
  by_cases h : 0 ≤ mb
  · rw [Int.tdiv_eq_ediv h (by norm_num)]
    omega
  · have e : mb = -(-mb) := by omega
    rw [e, Int.neg_tdiv, Int.tdiv_eq_ediv (by omega) (by norm_num)]
    omega

/-! ## The allocation loops -/

theorem fill_buffer_ok_props (w : World) (sz : Int) (attr : String) (t : AttrType)
    (b : BufferInfo) (h : fill_buffer w sz attr t = .ok b) :
    supported t.datatype = true ∧ w.alloc_ok sz = true ∧
    b.attr_name = attr ∧ b.datatype = t.datatype ∧
    b.data = some ⟨sz, w.alloc_bytes sz⟩ ∧
    b.offsets = (if t.var_len = 1 then some ⟨sz, w.alloc_bytes sz⟩ else none) ∧
    b.list_offsets = (if t.list = 1 then some ⟨sz, w.alloc_bytes sz⟩ else none) ∧
    b.bitmap = (if t.nullable = 1 then some ⟨sz, w.alloc_bytes sz⟩ else none) := by
  obtain ⟨d, v, n, l⟩ := t
  by_cases ha : w.alloc_ok sz = true
  · cases d <;> by_cases hv : v = 1 <;> by_cases hl : l = 1 <;> by_cases hn : n = 1 <;>
      simp [fill_buffer, to_numpy_dtype, to_arrow_datatype, alloc_data, alloc_offsets,
        alloc_list_offsets, alloc_bitmap, set_array, AllocateBuffer, ha, hv, hl, hn,
        build_arrow_array_from_buffer, bind, Except.bind, BufferInfo.value_init, supported] at h ⊢ <;>
      subst h <;> simp
  · cases d <;>
      simp [fill_buffer, to_numpy_dtype, to_arrow_datatype, alloc_data, AllocateBuffer, ha,
        bind, Except.bind] at h


theorem fill_buffer_total (w : World) (sz : Int) (attr : String) (t : AttrType)
    (hs : supported t.datatype = true) (ha : w.alloc_ok sz = true) :
    ∃ b, fill_buffer w sz attr t = .ok b := by
  obtain ⟨d, v, n, l⟩ := t
  cases d <;> by_cases hv : v = 1 <;> by_cases hl : l = 1 <;> by_cases hn : n = 1 <;>
    simp [fill_buffer, to_numpy_dtype, to_arrow_datatype, alloc_data, alloc_offsets,
      alloc_list_offsets, alloc_bitmap, set_array, AllocateBuffer, ha, hv, hl, hn,
      build_arrow_array_from_buffer, bind, Except.bind, BufferInfo.value_init, supported] at hs ⊢

theorem alloc_loop_ok_inv (w : World) (sz : Int) (attrs : List String) :
    ∀ (bufs out : List BufferInfo), alloc_loop w sz attrs bufs = (out, .ok ()) →
      ∃ fresh, out = bufs ++ fresh ∧ List.Forall₂ (Allocated w sz) attrs fresh := by
  induction attrs with
  | nil =>
    intro bufs out h
    simp [alloc_loop] at h
    exact ⟨[], by simp [h], List.Forall₂.nil⟩
  | cons a rest ih =>
    intro bufs out h
    unfold alloc_loop at h
    cases ht : w.get_attribute_type a with
    | error msg => simp [ht] at h
    | ok t =>
      cases hf : fill_buffer w sz a t with
      | error e => obtain ⟨back, e⟩ := e; simp [ht, hf] at h
      | ok back =>
        simp only [ht, hf] at h
        obtain ⟨fresh, hout, hall⟩ := ih _ _ h
        exact ⟨back :: fresh, by simp [hout], List.Forall₂.cons ⟨t, ht, hf⟩ hall⟩

theorem alloc_loop_total (w : World) (sz : Int) (ha : w.alloc_ok sz = true) (attrs : List String) :
    ∀ (bufs : List BufferInfo), (∀ a ∈ attrs, Plannable w a) →
      ∃ fresh, alloc_loop w sz attrs bufs = (bufs ++ fresh, .ok ()) := by
  induction attrs with
  | nil => intro bufs _; exact ⟨[], by simp [alloc_loop]⟩
  | cons a rest ih =>
    intro bufs hall
    obtain ⟨t, ht, hs⟩ := hall a (List.mem_cons_self _ _)
    obtain ⟨b, hb⟩ := fill_buffer_total w sz a t hs ha
    obtain ⟨fresh, hf⟩ := ih (bufs ++ [b]) (fun x hx => hall x (List.mem_cons_of_mem _ hx))
    refine ⟨b :: fresh, ?_⟩
    unfold alloc_loop
    simp [ht, hb, hf]

theorem count_buffers_ge (w : World) (attrs : List String) :
    ∀ (n m : Int), count_buffers w attrs n = .ok m → n + attrs.length ≤ m := by
  induction attrs with
  | nil => intro n m h; simp [count_buffers] at h; simp [h]
  | cons a rest ih =>
    intro n m h
    unfold count_buffers at h
    cases ht : w.get_attribute_type a with
    | error msg => simp [ht] at h
    | ok t =>
      simp only [ht] at h
      have := ih _ _ h
      simp only [List.length_cons, Nat.cast_add, Nat.cast_one]
      split_ifs at this <;> omega

theorem count_buffers_total (w : World) (attrs : List String) :
    ∀ (n : Int), (∀ a ∈ attrs, ∃ t, w.get_attribute_type a = .ok t) →
      ∃ m, count_buffers w attrs n = .ok m := by
  induction attrs with
  | nil => intro n _; exact ⟨n, rfl⟩
  | cons a rest ih =>
    intro n hall
    obtain ⟨t, ht⟩ := hall a (List.mem_cons_self _ _)
    unfold count_buffers
    simp only [ht]
    exact ih _ (fun x hx => hall x (List.mem_cons_of_mem _ hx))

theorem alloc_buffers_ok_inv (w : World) (r r' : Reader) (release_buffs : Bool)
    (h : alloc_buffers w r release_buffs = (r', .ok ())) :
    ∃ num_buffers fresh, count_buffers w r.attributes_ 0 = .ok num_buffers ∧
      r'.attributes_ = r.attributes_ ∧ r'.mem_budget_mb_ = r.mem_budget_mb_ ∧
      r'.buffers_ = (if release_buffs then [] else r.buffers_) ++ fresh ∧
      List.Forall₂ (Allocated w (alloc_size_bytes r.mem_budget_mb_ num_buffers))
        r.attributes_ fresh := by
  unfold alloc_buffers at h
  have key : ∀ r1 : Reader, r1.attributes_ = r.attributes_ → r1.mem_budget_mb_ = r.mem_budget_mb_ →
      r1.buffers_ = (if release_buffs then [] else r.buffers_) →
      (match count_buffers w r1.attributes_ 0 with
        | .error e => (r1, .error e)
        | .ok num_buffers =>
          if num_buffers = 0 then (r1, .ok ())
          else
            let out := alloc_loop w (alloc_size_bytes r1.mem_budget_mb_ num_buffers)
              r1.attributes_ r1.buffers_
            ({ r1 with buffers_ := out.1 }, out.2)) = (r', Except.ok ()) →
      ∃ num_buffers fresh, count_buffers w r.attributes_ 0 = .ok num_buffers ∧
        r'.attributes_ = r.attributes_ ∧ r'.mem_budget_mb_ = r.mem_budget_mb_ ∧
        r'.buffers_ = (if release_buffs then [] else r.buffers_) ++ fresh ∧
        List.Forall₂ (Allocated w (alloc_size_bytes r.mem_budget_mb_ num_buffers))
          r.attributes_ fresh := by
    intro r1 ha hm hb h1
    rw [ha, hm] at h1
    cases hc : count_buffers w r.attributes_ 0 with
    | error e => simp [hc] at h1
    | ok num_buffers =>
      simp only [hc] at h1
      by_cases hz : num_buffers = 0
      · simp only [hz, if_true, Prod.mk.injEq, and_true] at h1
        subst h1
        have hlen := count_buffers_ge w r.attributes_ 0 num_buffers hc
        have hnil : r.attributes_ = [] := by
          apply List.eq_nil_of_length_eq_zero
          omega
        refine ⟨num_buffers, [], rfl, ha, hm, by simp [hb], ?_⟩
        rw [hnil]
        exact List.Forall₂.nil
      · simp only [hz, if_false, Prod.mk.injEq] at h1
        obtain ⟨h1a, h1b⟩ := h1
        obtain ⟨fresh, hout, hall⟩ := alloc_loop_ok_inv w _ r.attributes_ r1.buffers_
          (alloc_loop w (alloc_size_bytes r.mem_budget_mb_ num_buffers) r.attributes_
            r1.buffers_).1 (by rw [← h1b])
        refine ⟨num_buffers, fresh, rfl, ?_, ?_, ?_, hall⟩
        · rw [← h1a]
        · rw [← h1a]
        · rw [← h1a]; simp only; rw [hout, hb]
  cases release_buffs with
  | false => exact key r rfl rfl (by simp) (by simpa using h)
  | true =>
    simp only [if_true, release_buffers] at h
    cases hr : w.reset_buffers with
    | some msg => simp [hr] at h
    | none =>
      simp only [hr] at h
      exact key { r with buffers_ := [] } rfl rfl (by simp) h

theorem alloc_buffers_total (w : World) (r : Reader) (release_buffs : Bool)
    (hreset : release_buffs = true → w.reset_buffers = none)
    (hattrs : ∀ a ∈ r.attributes_, Plannable w a)
    (halloc : ∀ m, count_buffers w r.attributes_ 0 = .ok m →
      w.alloc_ok (alloc_size_bytes r.mem_budget_mb_ m) = true) :
    ∃ r', alloc_buffers w r release_buffs = (r', .ok ()) := by
  obtain ⟨m, hm⟩ := count_buffers_total w r.attributes_ 0
    (fun a ha => (hattrs a ha).imp (fun _ h => h.1))
  have key : ∀ r1 : Reader, r1.attributes_ = r.attributes_ → r1.mem_budget_mb_ = r.mem_budget_mb_ →
      ∃ r', (match count_buffers w r1.attributes_ 0 with
        | .error e => (r1, .error e)
        | .ok num_buffers =>
          if num_buffers = 0 then (r1, .ok ())
          else
            let out := alloc_loop w (alloc_size_bytes r1.mem_budget_mb_ num_buffers)
              r1.attributes_ r1.buffers_
            ({ r1 with buffers_ := out.1 }, out.2)) = (r', Except.ok ()) := by
    intro r1 ha hb
    rw [ha, hb]
    simp only [hm]
    by_cases hz : m = 0
    · exact ⟨r1, by simp [hz]⟩
    · obtain ⟨fresh, hf⟩ := alloc_loop_total w _ (halloc m hm) r.attributes_ r1.buffers_ hattrs
      simp only [hz, if_false, hf]
      exact ⟨_, rfl⟩
  unfold alloc_buffers
  cases release_buffs with
  | false => simpa using key r rfl rfl
  | true =>
    simp only [if_true, release_buffers, hreset rfl]
    exact key { r with buffers_ := [] } rfl rfl

theorem Allocated_regions (w : World) (sz : Int) (a : String) (b : BufferInfo)
    (h : Allocated w sz a b) :
    ∃ t, w.get_attribute_type a = .ok t ∧ b.attr_name = a ∧
      (b.regions.length : Int) = 1 + (if t.var_len = 1 then 1 else 0) +
        (if t.list = 1 then 1 else 0) + (if t.nullable = 1 then 1 else 0) ∧
      ∀ x ∈ b.regions, x.size = sz := by
  obtain ⟨t, ht, hf⟩ := h
  obtain ⟨_, _, hname, _, hd, ho, hl, hb⟩ := fill_buffer_ok_props w sz a t b hf
  refine ⟨t, ht, hname, ?_, ?_⟩
  · simp only [BufferInfo.regions, hd, ho, hl, hb]
    split_ifs <;> simp
  · intro x hx
    simp only [BufferInfo.regions, hd, ho, hl, hb] at hx
    split_ifs at hx <;> simp at hx <;> rcases hx with rfl | hx <;> simp_all

theorem forall₂_right_mem {α β : Type} {R : α → β → Prop} {xs : List α} {ys : List β}
    (h : List.Forall₂ R xs ys) : ∀ y ∈ ys, ∃ x ∈ xs, R x y := by
  induction h with
  | nil => intro y hy; simp at hy
  | cons hxy _ ih =>
    intro y hy
    rcases List.mem_cons.mp hy with rfl | hy
    · exact ⟨_, List.mem_cons_self _ _, hxy⟩
    · obtain ⟨x, hx, hR⟩ := ih y hy
      exact ⟨x, List.mem_cons_of_mem _ hx, hR⟩

theorem forall₂_map_eq {α β : Type} {f : β → α} {xs : List α} {ys : List β}
    (h : List.Forall₂ (fun x y => f y = x) xs ys) : ys.map f = xs := by
  induction h with
  | nil => rfl
  | cons hxy _ ih => simp [hxy, ih]

theorem Allocated_names (w : World) (sz : Int) (attrs : List String) (fresh : List BufferInfo)
    (h : List.Forall₂ (Allocated w sz) attrs fresh) :
    fresh.map BufferInfo.attr_name = attrs :=
  forall₂_map_eq (h.imp (fun a b hab => by
    obtain ⟨t, _, hn, _, _⟩ := Allocated_regions w sz a b hab
    exact hn))

/-- With 0/1 flags the count of the first loop is the number of regions the
second loop allocates. -/
theorem count_buffers_eq_regions (w : World) (sz : Int) (attrs : List String)
    (fresh : List BufferInfo) (h : List.Forall₂ (Allocated w sz) attrs fresh)
    (hflags : ∀ a ∈ attrs, ∀ t, w.get_attribute_type a = .ok t → t.flags01) :
    ∀ (n m : Int), count_buffers w attrs n = .ok m →
      m = n + (fresh.map (fun b => (b.regions.length : Int))).sum := by
  induction h with
  | nil => intro n m hc; simp [count_buffers] at hc; simp [hc]
  | @cons a b rest fresh' hab _ ih =>
    intro n m hc
    obtain ⟨t, ht, _, hlen, _⟩ := Allocated_regions w sz a b hab
    obtain ⟨hv, hn, hl⟩ := hflags a (List.mem_cons_self _ _) t ht
    unfold count_buffers at hc
    simp only [ht] at hc
    have := ih (fun x hx => hflags x (List.mem_cons_of_mem _ hx)) _ _ hc
    simp only [List.map_cons, List.sum_cons, hlen]
    rw [this]
    rcases hv with hv | hv <;> rcases hn with hn | hn <;> rcases hl with hl | hl <;>
      simp [hv, hn, hl] <;> ring

theorem alloc_loop_unsupported (w : World) (sz : Int) (a : String) (post : List String)
    (t : AttrType) (tag : Int) (ht : w.get_attribute_type a = .ok t)
    (htag : t.datatype = other tag) (pre : List String) :
    ∀ (bufs : List BufferInfo), (∀ x ∈ pre, Plannable w x) →
      (pre ≠ [] → w.alloc_ok sz = true) →
      ∃ fresh, alloc_loop w sz (pre ++ a :: post) bufs =
          (bufs ++ fresh ++ [BufferInfo.named w a],
            .error (Error.unhandled_numpy_datatype (other tag))) ∧
        List.Forall₂ (Allocated w sz) pre fresh := by
  induction pre with
  | nil =>
    intro bufs _ _
    refine ⟨[], ?_, List.Forall₂.nil⟩
    obtain ⟨d, v, n, l⟩ := t
    simp only at htag
    subst htag
    simp [alloc_loop, ht, fill_buffer, to_numpy_dtype, BufferInfo.named]
  | cons x rest ih =>
    intro bufs hpre halloc
    obtain ⟨tx, htx, hsx⟩ := hpre x (List.mem_cons_self _ _)
    have ha := halloc (List.cons_ne_nil _ _)
    obtain ⟨b, hb⟩ := fill_buffer_total w sz x tx hsx ha
    obtain ⟨fresh, hf, hall⟩ := ih (bufs ++ [b])
      (fun y hy => hpre y (List.mem_cons_of_mem _ hy)) (fun _ => ha)
    refine ⟨b :: fresh, ?_, List.Forall₂.cons ⟨tx, htx, hb⟩ hall⟩
    have e : alloc_loop w sz (x :: rest ++ a :: post) bufs
        = alloc_loop w sz (rest ++ a :: post) (bufs ++ [b]) := by
      simp only [List.cons_append, alloc_loop, htx, hb]
      rfl
    rw [e, hf]
    simp

theorem to_int64_of_lt (n : Nat) (h : n < 2 ^ 63) : to_int64 n = n := by
  unfold to_int64
  norm_num at h ⊢
  omega

theorem to_int64_uint64_sub_one (n : Nat) (h : n ≤ 2 ^ 63) :
    to_int64 (uint64_sub n 1) = (n : Int) - 1 := by
  unfold to_int64 uint64_sub
  norm_num at h ⊢
  split_ifs with h1 <;> omega


/-! ## Claims on the budget split and sizing -/

theorem set_memory_budget_mem_budget (w : World) (r : Reader) (memory_mb : Int) :
    (set_memory_budget w r memory_mb).1.mem_budget_mb_ = memory_mb := by
  unfold set_memory_budget
  cases h : w.set_memory_budget (engine_budget_mb memory_mb) <;> simp [h]

theorem tdiv_nonpos_of_nonpos (a b : Int) (ha : a ≤ 0) (hb : 0 ≤ b) : Int.tdiv a b ≤ 0 := by
  have e : a = -(-a) := by omega
  rw [e, Int.neg_tdiv]
  have := Int.tdiv_nonneg (a := -a) (b := b) (by omega) hb
  omega

/-- C1, as stated, fails: with a budget of 1 MB (B = 1048576 bytes) and one
region, B / 3 / R is 349525 and B / 3 >= R, yet `alloc_size_bytes` is 0. -/
theorem C1_counterexample :
    alloc_size_bytes (set_memory_budget sample_world Reader.new 1).1.mem_budget_mb_ 1 = 0 ∧
      ((1 : Int) * 1024 * 1024) / 3 / 1 = 349525 ∧
      (1 : Int) ≤ ((1 : Int) * 1024 * 1024) / 3 := by
  decide

/-- C1 (amended): for every budget `memory_mb > 0` set through
`set_memory_budget` and every region count `R > 0`, the per-region byte size
`alloc_size_bytes` is `floor (floor (memory_mb / 3) * 1024 * 1024 / R)`: the
third is taken in whole megabytes before the conversion to bytes. It is
strictly positive whenever `floor (memory_mb / 3) * 1024 * 1024 >= R`, and it
equals `floor (B / 3 / R)` for `B = memory_mb * 1024 * 1024` whenever
`memory_mb` is a multiple of three. -/
theorem C1_alloc_size_bytes (w : World) (r : Reader) (memory_mb R : Int)
    (hpos : 0 < memory_mb) (hint32 : memory_mb < 2 ^ 31) (hR : 0 < R) :
    alloc_size_bytes (set_memory_budget w r memory_mb).1.mem_budget_mb_ R
        = memory_mb / 3 * 1024 * 1024 / R ∧
      (R ≤ memory_mb / 3 * 1024 * 1024 →
        0 < alloc_size_bytes (set_memory_budget w r memory_mb).1.mem_budget_mb_ R) ∧
      (3 ∣ memory_mb →
        alloc_size_bytes (set_memory_budget w r memory_mb).1.mem_budget_mb_ R
          = memory_mb * 1024 * 1024 / 3 / R) := by
  rw [set_memory_budget_mem_budget]
  have hb : budget_mb memory_mb = memory_mb / 3 := by
    rw [budget_mb_eq_tdiv memory_mb (by norm_num; omega) hint32]
    exact Int.tdiv_eq_ediv (by omega) (by norm_num)
  have hnum : 0 ≤ memory_mb / 3 * 1024 * 1024 := by
    have : 0 ≤ memory_mb / 3 := Int.ediv_nonneg (by omega) (by norm_num)
    omega
  have hsz : alloc_size_bytes memory_mb R = memory_mb / 3 * 1024 * 1024 / R := by
    unfold alloc_size_bytes
    rw [if_neg (by omega), hb]
    exact Int.tdiv_eq_ediv hnum (by omega)
  refine ⟨hsz, ?_, ?_⟩
  · intro hle
    rw [hsz]
    have := Int.le_ediv_of_mul_le (a := 1) hR (by omega : 1 * R ≤ memory_mb / 3 * 1024 * 1024)
    omega
  · rintro ⟨k, rfl⟩
    rw [hsz]
    congr 1
    omega

/-- C1 (amended), run on a budget of 2048 MB and seven regions. -/
theorem C1_alloc_size_bytes_witness :
    alloc_size_bytes (set_memory_budget sample_world Reader.new 2048).1.mem_budget_mb_ 7
        = 102161261 :=
  (C1_alloc_size_bytes sample_world Reader.new 2048 7 (by decide) (by decide) (by decide)).1.trans
    (by decide)

/-- C6: for every budget `mb >= 0` passed to `set_memory_budget`, the share
sent to the engine is `floor (2 * mb / 3)` (and is what the engine holds when
it accepts the call), the share `alloc_buffers` keeps is `floor (mb / 3)`;
the two shares add up to at most `mb` and fall short of it by at most one. -/
theorem C6_budget_split (w : World) (r : Reader) (mb : Int) (h0 : 0 ≤ mb)
    (hint32 : mb < 2 ^ 31) :
    ∃ e : Nat, engine_budget_mb mb = some e ∧ (e : Int) = 2 * mb / 3 ∧
      (w.set_memory_budget (some e) = none →
        (set_memory_budget w r mb).1.ptr.memory_budget_mb = some e) ∧
      budget_mb (set_memory_budget w r mb).1.mem_budget_mb_ = mb / 3 ∧
      (e : Int) + budget_mb (set_memory_budget w r mb).1.mem_budget_mb_ ≤ mb ∧
      mb - ((e : Int) + budget_mb (set_memory_budget w r mb).1.mem_budget_mb_) ≤ 1 := by
  have he := engine_budget_mb_eq mb h0 hint32
  have hb : budget_mb mb = mb / 3 := by
    rw [budget_mb_eq_tdiv mb (by norm_num; omega) hint32]
    exact Int.tdiv_eq_ediv (by omega) (by norm_num)
  have hcast : (((2 * mb / 3).toNat : Nat) : Int) = 2 * mb / 3 :=
    Int.toNat_of_nonneg (Int.ediv_nonneg (by omega) (by norm_num))
  refine ⟨(2 * mb / 3).toNat, he, hcast, ?_, ?_, ?_, ?_⟩
  · intro hacc
    unfold set_memory_budget
    simp only [he, hacc]
  · rw [set_memory_budget_mem_budget, hb]
  · rw [set_memory_budget_mem_budget, hb, hcast]; omega
  · rw [set_memory_budget_mem_budget, hb, hcast]; omega

/-- C6, run on the default budget of 2048 MB: 1365 MB go to the engine, 682
MB stay with the buffer pool. -/
theorem C6_budget_split_witness :
    (0 : Int) ≤ 2048 ∧ (2048 : Int) < 2 ^ 31 ∧
      ∃ e : Nat, engine_budget_mb 2048 = some e ∧ (e : Int) = 2 * 2048 / 3 ∧
        (sample_world.set_memory_budget (some e) = none →
          (set_memory_budget sample_world Reader.new 2048).1.ptr.memory_budget_mb = some e) ∧
        budget_mb (set_memory_budget sample_world Reader.new 2048).1.mem_budget_mb_ = 2048 / 3 ∧
        (e : Int) + budget_mb (set_memory_budget sample_world Reader.new 2048).1.mem_budget_mb_
          ≤ 2048 ∧
        2048 - ((e : Int) +
          budget_mb (set_memory_budget sample_world Reader.new 2048).1.mem_budget_mb_) ≤ 1 :=
  ⟨by decide, by decide, C6_budget_split sample_world Reader.new 2048 (by decide) (by decide)⟩

/-! ## Claims on the buffer pool -/

theorem forall₂_and_left {α β : Type} {R : α → β → Prop} {P : α → Prop} {xs : List α}
    {ys : List β} (h : List.Forall₂ R xs ys) (hP : ∀ x ∈ xs, P x) :
    List.Forall₂ (fun x y => R x y ∧ P x) xs ys := by
  induction h with
  | nil => exact List.Forall₂.nil
  | cons hxy _ ih =>
    exact List.Forall₂.cons ⟨hxy, hP _ (List.mem_cons_self _ _)⟩
      (ih (fun x hx => hP x (List.mem_cons_of_mem _ hx)))

theorem count_buffers_step (w : World) (attr : String) (t : AttrType)
    (ht : w.get_attribute_type attr = .ok t) (hf : t.flags01) (rest : List String) (n : Int) :
    count_buffers w (attr :: rest) n
      = count_buffers w rest (n + (1 + t.var_len + t.list + t.nullable)) := by
  obtain ⟨hv, hn, hl⟩ := hf
  have e : count_buffers w (attr :: rest) n = count_buffers w rest
      (n + 1 + (if t.var_len ≠ 0 then 1 else 0) + (if t.nullable ≠ 0 then 1 else 0)
        + (if t.list ≠ 0 then 1 else 0)) := by
    simp only [count_buffers, ht]
  rw [e]
  congr 1
  rcases hv with hv | hv <;> rcases hn with hn | hn <;> rcases hl with hl | hl <;>
    simp [hv, hn, hl] <;> ring

/-- C2: after a successful `alloc_buffers`, for every attribute (the engine
reporting its three flags as 0 or 1) the Buffer Set made for it holds
`1 + var_len + list + nullable` raw regions, which is also what the attribute
adds to `num_buffers` in the counting loop; so `num_buffers` is the total
number of regions allocated. -/
theorem C2_regions_per_attribute (w : World) (r r' : Reader) (release_buffs : Bool)
    (hok : alloc_buffers w r release_buffs = (r', .ok ()))
    (hflags : ∀ a ∈ r.attributes_, ∀ t, w.get_attribute_type a = .ok t → t.flags01) :
    ∃ num_buffers fresh,
      count_buffers w r.attributes_ 0 = .ok num_buffers ∧
      r'.buffers_ = (if release_buffs then [] else r.buffers_) ++ fresh ∧
      List.Forall₂ (fun attr b => ∃ t, w.get_attribute_type attr = .ok t ∧ b.attr_name = attr ∧
          (b.regions.length : Int) = 1 + t.var_len + t.list + t.nullable ∧
          ∀ rest n, count_buffers w (attr :: rest) n
            = count_buffers w rest (n + (1 + t.var_len + t.list + t.nullable)))
        r.attributes_ fresh ∧
      num_buffers = (fresh.map (fun b => (b.regions.length : Int))).sum := by
  obtain ⟨m, fresh, hc, _, _, hb, hall⟩ := alloc_buffers_ok_inv w r r' release_buffs hok
  refine ⟨m, fresh, hc, hb, ?_, ?_⟩
  · refine (forall₂_and_left hall hflags).imp ?_
    rintro a b ⟨hab, hfl⟩
    obtain ⟨t, ht, hname, hlen, _⟩ := Allocated_regions w _ a b hab
    obtain ⟨hv, hn, hl⟩ := hfl t ht
    refine ⟨t, ht, hname, ?_, count_buffers_step w a t ht ⟨hv, hn, hl⟩⟩
    rw [hlen]
    rcases hv with hv | hv <;> rcases hn with hn | hn <;> rcases hl with hl | hl <;>
      simp [hv, hn, hl]
  · have := count_buffers_eq_regions w _ r.attributes_ fresh hall hflags 0 m hc
    simpa using this

theorem sample_flags01 (attrs : List String) :
    ∀ a ∈ attrs, ∀ t, sample_world.get_attribute_type a = .ok t → t.flags01 := by
  intro a _ t ht
  simp only [sample_world] at ht
  split_ifs at ht <;> (cases ht; decide)

/-- C2, run on the sample session (`alleles`, `pos`, `fmt_GT`): 3 + 1 + 3
regions, seven in all. -/
theorem C2_regions_per_attribute_witness :
    alloc_buffers sample_world sample_reader true
        = ((alloc_buffers sample_world sample_reader true).1, .ok ()) ∧
      ∃ num_buffers fresh,
        count_buffers sample_world sample_reader.attributes_ 0 = .ok num_buffers ∧
        (alloc_buffers sample_world sample_reader true).1.buffers_
          = (if true = true then [] else sample_reader.buffers_) ++ fresh ∧
        List.Forall₂ (fun attr b => ∃ t, sample_world.get_attribute_type attr = .ok t ∧
            b.attr_name = attr ∧
            (b.regions.length : Int) = 1 + t.var_len + t.list + t.nullable ∧
            ∀ rest n, count_buffers sample_world (attr :: rest) n
              = count_buffers sample_world rest (n + (1 + t.var_len + t.list + t.nullable)))
          sample_reader.attributes_ fresh ∧
        num_buffers = (fresh.map (fun b => (b.regions.length : Int))).sum :=
  ⟨rfl, C2_regions_per_attribute sample_world sample_reader _ true rfl
    (sample_flags01 sample_reader.attributes_)⟩

theorem sample_plannable (attrs : List String)
    (h : ∀ a ∈ attrs, a = "alleles" ∨ a = "pos" ∨ a = "fmt_GT") :
    ∀ a ∈ attrs, Plannable sample_world a := by
  intro a ha
  rcases h a ha with rfl | rfl | rfl
  · exact ⟨_, rfl, rfl⟩
  · exact ⟨_, rfl, rfl⟩
  · exact ⟨_, rfl, rfl⟩

/-- C3: with a session budget of 0, for every non-empty attribute list and
every combination of flags, `alloc_buffers` succeeds (the engine knowing the
attributes, their datatypes being supported and 10-byte allocations being
served) and every region of every Buffer Set it makes has 10 bytes. -/
theorem C3_zero_budget (w : World) (r : Reader) (release_buffs : Bool)
    (hzero : r.mem_budget_mb_ = 0) (hne : r.attributes_ ≠ [])
    (hreset : release_buffs = true → w.reset_buffers = none)
    (hattrs : ∀ a ∈ r.attributes_, Plannable w a) (halloc : w.alloc_ok 10 = true) :
    ∃ r' fresh, alloc_buffers w r release_buffs = (r', .ok ()) ∧
      r'.buffers_ = (if release_buffs then [] else r.buffers_) ++ fresh ∧
      fresh ≠ [] ∧ fresh.length = r.attributes_.length ∧
      ∀ b ∈ fresh, b.regions ≠ [] ∧ ∀ x ∈ b.regions, x.size = 10 := by
  have hsz : ∀ m, alloc_size_bytes r.mem_budget_mb_ m = 10 := by
    intro m; simp [alloc_size_bytes, hzero]
  obtain ⟨r', hr'⟩ := alloc_buffers_total w r release_buffs hreset hattrs
    (fun m _ => by rw [hsz]; exact halloc)
  obtain ⟨m, fresh, _, _, _, hb, hall⟩ := alloc_buffers_ok_inv w r r' release_buffs hr'
  rw [hsz] at hall
  have hlen : fresh.length = r.attributes_.length := hall.length_eq.symm
  refine ⟨r', fresh, hr', hb, ?_, hlen, ?_⟩
  · intro hnil
    rw [hnil] at hlen
    exact hne (List.eq_nil_of_length_eq_zero hlen.symm)
  · intro b hb
    obtain ⟨a, _, hab⟩ := forall₂_right_mem hall b hb
    obtain ⟨t, _, _, hcount, hsize⟩ := Allocated_regions w 10 a b hab
    refine ⟨?_, hsize⟩
    intro hnil
    rw [hnil] at hcount
    simp only [List.length_nil, Nat.cast_zero] at hcount
    split_ifs at hcount <;> omega

/-- C3, run on the sample session with the budget set to 0. -/
theorem C3_zero_budget_witness :
    ∃ r' fresh, alloc_buffers sample_world { sample_reader with mem_budget_mb_ := 0 } true
        = (r', .ok ()) ∧
      r'.buffers_ = (if true = true then [] else sample_reader.buffers_) ++ fresh ∧
      fresh ≠ [] ∧ fresh.length = sample_reader.attributes_.length ∧
      ∀ b ∈ fresh, b.regions ≠ [] ∧ ∀ x ∈ b.regions, x.size = 10 :=
  C3_zero_budget sample_world { sample_reader with mem_budget_mb_ := 0 } true rfl (by decide)
    (fun _ => rfl) (sample_plannable _ (by decide)) rfl

/-- C4, as stated, fails: with a budget of 1 MB the one-third share is 0 and
the only region of the only attribute gets 0 bytes, not 10; with a budget of
-3 MB the size is negative. -/
theorem C4_counterexample :
    budget_mb 1 = 0 ∧
      (alloc_buffers sample_world
          { Reader.new with attributes_ := ["pos"], mem_budget_mb_ := 1 } true).1.buffers_.map
        (fun b => b.regions.map Buffer.size) = [[0]] ∧
      alloc_size_bytes 1 1 ≠ 10 ∧ alloc_size_bytes (-3) 1 = -1048576 := by
  decide

/-- C4 (amended): `alloc_buffers` has no clamp. For every non-zero `int32_t`
budget whose one-third share `budget_mb` is zero or negative and every region
count `R > 0`, the per-region size is the truncated quotient of
`budget_mb * 1024 * 1024` by `R`: it is never the 10-byte size, it is 0 when
the share is 0 (budgets 1, 2, -1, -2) and at most 0 otherwise. The budget
raises no error in `alloc_buffers` itself: the call succeeds whenever the
engine calls succeed, the datatypes are supported and the Arrow allocations
of that size are served. -/
theorem C4_no_clamp (w : World) (r : Reader) (release_buffs : Bool)
    (hne : r.mem_budget_mb_ ≠ 0) (hlo : -2 ^ 31 ≤ r.mem_budget_mb_)
    (hhi : r.mem_budget_mb_ < 2 ^ 31) (hshare : budget_mb r.mem_budget_mb_ ≤ 0) :
    (∀ R : Int, 0 < R →
      alloc_size_bytes r.mem_budget_mb_ R
          = Int.tdiv (Int.tdiv r.mem_budget_mb_ 3 * 1024 * 1024) R ∧
        alloc_size_bytes r.mem_budget_mb_ R ≤ 0 ∧ alloc_size_bytes r.mem_budget_mb_ R ≠ 10 ∧
        (budget_mb r.mem_budget_mb_ = 0 → alloc_size_bytes r.mem_budget_mb_ R = 0)) ∧
      ((release_buffs = true → w.reset_buffers = none) →
        (∀ a ∈ r.attributes_, Plannable w a) →
        (∀ m, count_buffers w r.attributes_ 0 = .ok m →
          w.alloc_ok (alloc_size_bytes r.mem_budget_mb_ m) = true) →
        ∃ r', alloc_buffers w r release_buffs = (r', .ok ())) := by
  refine ⟨?_, alloc_buffers_total w r release_buffs⟩
  intro R hR
  have hsz : alloc_size_bytes r.mem_budget_mb_ R
      = Int.tdiv (budget_mb r.mem_budget_mb_ * 1024 * 1024) R := by
    simp [alloc_size_bytes, hne]
  have hle : alloc_size_bytes r.mem_budget_mb_ R ≤ 0 := by
    rw [hsz]
    exact tdiv_nonpos_of_nonpos _ _ (by omega) (by omega)
  refine ⟨?_, hle, by omega, ?_⟩
  · rw [hsz, budget_mb_eq_tdiv _ hlo hhi]
  · intro h0
    rw [hsz, h0]
    simp

/-- C4 (amended), run on a budget of 2 MB: the three regions of `alleles` get
0 bytes each and the call succeeds. -/
theorem C4_no_clamp_witness :
    (∀ R : Int, 0 < R → alloc_size_bytes 2 R = 0) ∧
      ∃ r', alloc_buffers sample_world
        { Reader.new with attributes_ := ["alleles"], mem_budget_mb_ := 2 } true = (r', .ok ()) :=
  have h := C4_no_clamp sample_world
    { Reader.new with attributes_ := ["alleles"], mem_budget_mb_ := 2 } true
    (by decide) (by decide) (by decide) (by decide)
  ⟨fun R hR => (h.1 R hR).2.2.2 (by decide),
    h.2 (fun _ => rfl) (sample_plannable _ (by decide)) (fun m hm => by
      have h3 : count_buffers sample_world ["alleles"] 0 = .ok 3 := rfl
      have e : m = 3 := (Except.ok.inj (h3.symm.trans hm)).symm
      subst e
      rfl)⟩

/-- C5, as stated, fails: with the attributes `pos` and `flag` (datatype tag
4) `alloc_buffers` throws the unsupported-type error for tag 4, and
`buffers_` then holds an entry named `flag`. -/
theorem C5_counterexample :
    (alloc_buffers sample_world { Reader.new with attributes_ := ["pos", "flag"] } true).2
        = .error (Error.unhandled_numpy_datatype (other 4)) ∧
      (alloc_buffers sample_world
          { Reader.new with attributes_ := ["pos", "flag"] } true).1.buffers_.map
        BufferInfo.attr_name = ["pos", "flag"] :=
  ⟨rfl, rfl⟩

/-- C5 (amended): when the first attribute with a datatype tag other than
char, uint8, int32 or float32 is `a` (the engine answering for every
attribute, and the allocations for the attributes before `a` being served),
`alloc_buffers` fails with the unsupported-type error of `to_numpy_dtype`
naming that tag, and `buffers_` then ends with the Buffer Sets of the
attributes before `a` followed by an entry for `a` that carries only its
name: none of its regions is allocated. -/
theorem C5_unsupported_datatype (w : World) (r : Reader) (release_buffs : Bool)
    (pre post : List String) (a : String) (t : AttrType) (tag : Int)
    (hattrs : r.attributes_ = pre ++ a :: post)
    (hpre : ∀ x ∈ pre, Plannable w x)
    (hpost : ∀ x ∈ post, ∃ tx, w.get_attribute_type x = .ok tx)
    (ha : w.get_attribute_type a = .ok t) (htag : t.datatype = other tag)
    (hreset : release_buffs = true → w.reset_buffers = none)
    (halloc : pre ≠ [] → ∀ m, count_buffers w r.attributes_ 0 = .ok m →
      w.alloc_ok (alloc_size_bytes r.mem_budget_mb_ m) = true) :
    ∃ r' fresh back,
      alloc_buffers w r release_buffs
        = (r', .error (Error.unhandled_numpy_datatype (other tag))) ∧
      r'.buffers_ = (if release_buffs then [] else r.buffers_) ++ fresh ++ [back] ∧
      fresh.map BufferInfo.attr_name = pre ∧
      back = BufferInfo.named w a ∧ back.attr_name = a ∧ back.regions = [] := by
  have hall : ∀ x ∈ r.attributes_, ∃ tx, w.get_attribute_type x = .ok tx := by
    intro x hx
    rw [hattrs] at hx
    rcases List.mem_append.mp hx with hx | hx
    · exact (hpre x hx).imp (fun _ h => h.1)
    · rcases List.mem_cons.mp hx with rfl | hx
      · exact ⟨t, ha⟩
      · exact hpost x hx
  obtain ⟨m, hm⟩ := count_buffers_total w r.attributes_ 0 hall
  have hge := count_buffers_ge w r.attributes_ 0 m hm
  have hm0 : m ≠ 0 := by
    rw [hattrs] at hge
    simp only [List.length_append, List.length_cons, Nat.cast_add, Nat.cast_one] at hge
    omega
  have key : ∀ r1 : Reader, r1.attributes_ = r.attributes_ →
      r1.mem_budget_mb_ = r.mem_budget_mb_ →
      ∃ fresh,
        (match count_buffers w r1.attributes_ 0 with
          | .error e => (r1, .error e)
          | .ok num_buffers =>
            if num_buffers = 0 then (r1, .ok ())
            else
              let out := alloc_loop w (alloc_size_bytes r1.mem_budget_mb_ num_buffers)
                r1.attributes_ r1.buffers_
              ({ r1 with buffers_ := out.1 }, out.2))
          = ({ r1 with buffers_ := r1.buffers_ ++ fresh ++ [BufferInfo.named w a] },
              .error (Error.unhandled_numpy_datatype (other tag))) ∧
        fresh.map BufferInfo.attr_name = pre := by
    intro r1 h1 h2
    obtain ⟨fresh, hf, hfa⟩ := alloc_loop_unsupported w
      (alloc_size_bytes r.mem_budget_mb_ m) a post t tag ha htag pre r1.buffers_ hpre
      (fun hp => halloc hp m hm)
    refine ⟨fresh, ?_, Allocated_names w _ pre fresh hfa⟩
    rw [h1, h2]
    simp only [hm, hm0, if_false]
    rw [hattrs, hf]
  cases release_buffs with
  | false =>
    obtain ⟨fresh, hf, hn⟩ := key r rfl rfl
    refine ⟨{ r with buffers_ := r.buffers_ ++ fresh ++ [BufferInfo.named w a] }, fresh,
      BufferInfo.named w a, ?_, ?_, hn, rfl, rfl, rfl⟩
    · unfold alloc_buffers
      simpa using hf
    · simp
  | true =>
    obtain ⟨fresh, hf, hn⟩ := key { r with buffers_ := [] } rfl rfl
    refine ⟨{ r with buffers_ := [] ++ fresh ++ [BufferInfo.named w a] }, fresh,
      BufferInfo.named w a, ?_, ?_, hn, rfl, rfl, rfl⟩
    · unfold alloc_buffers
      simp only [if_true, release_buffers, hreset rfl]
      exact hf
    · simp

/-- C5 (amended), run on the sample engine with the attributes `pos`, `flag`
and `alleles`. -/
theorem C5_unsupported_datatype_witness :
    ∃ r' fresh back,
      alloc_buffers sample_world { Reader.new with attributes_ := ["pos", "flag", "alleles"] }
          true
        = (r', .error (Error.unhandled_numpy_datatype (other 4))) ∧
      r'.buffers_ = (if true = true then [] else Reader.new.buffers_) ++ fresh ++ [back] ∧
      fresh.map BufferInfo.attr_name = ["pos"] ∧
      back = BufferInfo.named sample_world "flag" ∧ back.attr_name = "flag" ∧
      back.regions = [] :=
  C5_unsupported_datatype sample_world
    { Reader.new with attributes_ := ["pos", "flag", "alleles"] } true ["pos"] ["alleles"]
    "flag" ⟨other 4, 0, 0, 0⟩ 4 rfl
    (sample_plannable _ (by decide))
    (fun x hx => by
      rcases List.mem_singleton.mp hx with rfl
      exact ⟨_, rfl⟩)
    rfl rfl (fun _ => rfl)
    (fun _ m hm => by
      have h3 : count_buffers sample_world ["pos", "flag", "alleles"] 0 = .ok 5 := rfl
      have e : m = 5 := (Except.ok.inj (h3.symm.trans hm)).symm
      subst e
      rfl)

theorem get_of_map_eq {α β : Type} (f : α → β) (xs : List α) (ys : List β)
    (h : xs.map f = ys) (i : Nat) (hi : i < xs.length) (hj : i < ys.length) :
    f (xs.get ⟨i, hi⟩) = ys.get ⟨i, hj⟩ := by
  subst h
  simp

/-- C7, as stated, fails for `release_buffs = false`: a first
`alloc_buffers` for the attribute `pos` followed by a second one that does not
release leaves two Buffer Sets for the one attribute, the first of them from
the previous generation. -/
theorem C7_counterexample :
    (alloc_buffers sample_world
        (alloc_buffers sample_world { Reader.new with attributes_ := ["pos"] } true).1 false).2
        = .ok () ∧
      (alloc_buffers sample_world
        (alloc_buffers sample_world { Reader.new with attributes_ := ["pos"] } true).1
          false).1.buffers_.length = 2 ∧
      (alloc_buffers sample_world
        (alloc_buffers sample_world { Reader.new with attributes_ := ["pos"] } true).1
          false).1.attributes_.length = 1 :=
  ⟨rfl, rfl, rfl⟩

/-- C7 (amended): after every successful `alloc_buffers (release_buffs)` the
pool `buffers_` is the previous pool, emptied first only when `release_buffs`
is true, followed by exactly one fresh Buffer Set per requested attribute, in
attribute order. So when `release_buffs` is true or the previous pool was
empty, `buffers_` has the length of `attributes_` and the names of its
entries are the attributes in order, none of a previous generation remaining;
with `release_buffs` false the previous generation stays in front. -/
theorem C7_fresh_generation (w : World) (r r' : Reader) (release_buffs : Bool)
    (hok : alloc_buffers w r release_buffs = (r', .ok ())) :
    r'.attributes_ = r.attributes_ ∧
    (∃ fresh, r'.buffers_ = (if release_buffs then [] else r.buffers_) ++ fresh ∧
      fresh.length = r'.attributes_.length ∧
      fresh.map BufferInfo.attr_name = r'.attributes_) ∧
    (release_buffs = true ∨ r.buffers_ = [] →
      r'.buffers_.length = r'.attributes_.length ∧
      r'.buffers_.map BufferInfo.attr_name = r'.attributes_ ∧
      ∀ i (hi : i < r'.buffers_.length) (hj : i < r'.attributes_.length),
        (r'.buffers_.get ⟨i, hi⟩).attr_name = r'.attributes_.get ⟨i, hj⟩) := by
  obtain ⟨m, fresh, _, hattr, _, hb, hall⟩ := alloc_buffers_ok_inv w r r' release_buffs hok
  have hnames := Allocated_names w _ _ fresh hall
  refine ⟨hattr, ⟨fresh, hb, ?_, ?_⟩, ?_⟩
  · rw [hattr]; exact hall.length_eq.symm
  · rw [hattr]; exact hnames
  · intro hcase
    have hbf : r'.buffers_ = fresh := by
      rw [hb]
      rcases hcase with h | h
      · simp [h]
      · simp [h]
    have hmap : r'.buffers_.map BufferInfo.attr_name = r'.attributes_ := by
      rw [hbf, hattr]; exact hnames
    refine ⟨?_, hmap, ?_⟩
    · rw [hbf, hattr]; exact hall.length_eq.symm
    · intro i hi hj
      exact get_of_map_eq BufferInfo.attr_name _ _ hmap i hi hj

/-- C7 (amended), run on the sample session with `release_buffs = true` after
an earlier allocation. -/
theorem C7_fresh_generation_witness :
    (alloc_buffers sample_world (alloc_buffers sample_world sample_reader true).1 true).1.buffers_.map
        BufferInfo.attr_name = ["alleles", "pos", "fmt_GT"] :=
  ((C7_fresh_generation sample_world (alloc_buffers sample_world sample_reader true).1 _ true
    rfl).2.2 (Or.inl rfl)).2.1

/-! ## Claims on the materialiser -/

theorem results_loop_ok_inv (w : World) (num_records : Int) (bufs : List BufferInfo) :
    ∀ (fields fs : List Field) (arrays cols : List ArrowArray),
      results_loop w num_records bufs fields arrays = .ok (fs, cols) →
      fs = fields ++ bufs.map (fun b => (⟨b.attr_name, b.arrow_array_datatype⟩ : Field)) ∧
      ∃ fresh, cols = arrays ++ fresh ∧ List.Forall₂ (Column w num_records) bufs fresh := by
  induction bufs with
  | nil =>
    intro fields fs arrays cols h
    simp only [results_loop, Except.ok.injEq, Prod.mk.injEq] at h
    exact ⟨by simp [h.1], [], by simp [h.2], List.Forall₂.nil⟩
  | cons b rest ih =>
    intro fields fs arrays cols h
    unfold results_loop at h
    cases hs : w.get_result_size b.attr_name with
    | error msg => simp [hs] at h
    | ok sizes =>
      obtain ⟨num_offsets, num_data_elements, num_data_bytes⟩ := sizes
      cases ha : build_arrow_array_from_buffer w b (to_uint64 num_records)
          (to_uint64 num_offsets) (to_uint64 num_data_elements) with
      | error e => simp [hs, ha] at h
      | ok array =>
        simp only [hs, ha] at h
        obtain ⟨hfs, fresh, hcols, hall⟩ := ih _ _ _ _ h
        refine ⟨by simp [hfs], array :: fresh, by simp [hcols], ?_⟩
        exact List.Forall₂.cons ⟨num_offsets, num_data_elements, num_data_bytes, hs, ha⟩ hall

/-- C9: for a char Buffer Set with a value-offsets region and no list-offsets
region, `build_arrow_array_from_buffer` yields a string array of exactly
`count` entries, over the value-offsets and values regions and with the
validity region of the Buffer Set, in which entry `i` is the slice of the
values bytes from offset `i` up to offset `i + 1`. -/
theorem C9_string_array (w : World) (buffer : BufferInfo)
    (count num_offsets num_data_elements : Nat) (offsets data : Buffer)
    (hchar : buffer.datatype = TILEDB_VCF_CHAR) (hlist : buffer.list_offsets = none)
    (hoffsets : buffer.offsets = some offsets) (hdata : buffer.data = some data)
    (hcount : count < 2 ^ 63) :
    ∃ arr, build_arrow_array_from_buffer w buffer count num_offsets num_data_elements = .ok arr ∧
      arr = ArrowArray.string count (some offsets) (some data) buffer.bitmap ∧
      arr.type = DataType.utf8 ∧ arr.length = count ∧
      ∀ i, i < count → ∀ o o', offsets.int32_at i = some o → offsets.int32_at (i + 1) = some o' →
        arr.GetString i = some ((data.bytes.drop o.toNat).take (o' - o).toNat) := by
  refine ⟨ArrowArray.string count (some offsets) (some data) buffer.bitmap, ?_, rfl, rfl, rfl, ?_⟩
  · unfold build_arrow_array_from_buffer
    simp only [hchar, hlist, hoffsets, hdata, to_int64_of_lt count hcount]
  · intro i _ o o' ho ho'
    simp only [ArrowArray.GetString, ho, ho']

/-- C9, run on the offsets [0, 3, 3, 7] and the payload "abcdefg" with
count 3: the entries are "abc", "" and "defg". -/
theorem C9_string_array_witness :
    ∃ arr, build_arrow_array_from_buffer sample_world
        (char_buffer "id" (some ⟨7, ascii "abcdefg"⟩) (some ⟨16, int32_bytes [0, 3, 3, 7]⟩)
          none none) 3 4 7 = .ok arr ∧
      arr.length = 3 ∧
      arr.GetString 0 = some (ascii "abc") ∧ arr.GetString 1 = some (ascii "") ∧
      arr.GetString 2 = some (ascii "defg") := by
  obtain ⟨arr, hbuild, _, _, hlen, hget⟩ := C9_string_array sample_world
    (char_buffer "id" (some ⟨7, ascii "abcdefg"⟩) (some ⟨16, int32_bytes [0, 3, 3, 7]⟩)
      none none) 3 4 7 ⟨16, int32_bytes [0, 3, 3, 7]⟩ ⟨7, ascii "abcdefg"⟩ rfl rfl rfl rfl
    (by decide)
  refine ⟨arr, hbuild, hlen, ?_, ?_, ?_⟩
  · exact hget 0 (by decide) 0 3 (by decide) (by decide)
  · exact hget 1 (by decide) 3 3 (by decide) (by decide)
  · exact hget 2 (by decide) 3 7 (by decide) (by decide)

/-- C10: for a char Buffer Set with a list-offsets region,
`build_arrow_array_from_buffer` yields a list array of `count` entries, of
type list of the recorded `arrow_datatype`, over the list-offsets region and
with the validity region of the Buffer Set, whose child is a string array of
`num_offsets - 1` strings over the value-offsets and values regions with no
validity of its own; entry `j` of the list array has length
`list_offsets[j + 1] - list_offsets[j]`. -/
theorem C10_list_of_string_array (w : World) (buffer : BufferInfo)
    (count num_offsets num_data_elements : Nat) (list_offsets : Buffer)
    (hchar : buffer.datatype = TILEDB_VCF_CHAR) (hlist : buffer.list_offsets = some list_offsets)
    (hcount : count < 2 ^ 63) (hnum : num_offsets ≤ 2 ^ 63) :
    ∃ outer inner,
      build_arrow_array_from_buffer w buffer count num_offsets num_data_elements = .ok outer ∧
      outer = ArrowArray.list (DataType.list buffer.arrow_datatype) count (some list_offsets)
        inner buffer.bitmap ∧
      inner = ArrowArray.string ((num_offsets : Int) - 1) buffer.offsets buffer.data none ∧
      outer.length = count ∧ outer.values = some inner ∧
      inner.length = (num_offsets : Int) - 1 ∧
      inner.null_bitmap = none ∧ outer.null_bitmap = buffer.bitmap ∧
      ∀ j, j < count → ∀ o o', list_offsets.int32_at j = some o →
        list_offsets.int32_at (j + 1) = some o' → outer.value_length j = some (o' - o) := by
  refine ⟨_, ArrowArray.string ((num_offsets : Int) - 1) buffer.offsets buffer.data none,
    ?_, rfl, rfl, rfl, rfl, rfl, rfl, rfl, ?_⟩
  · unfold build_arrow_array_from_buffer
    simp only [hchar, hlist, to_int64_of_lt count hcount,
      to_int64_uint64_sub_one num_offsets hnum]
  · intro j _ o o' ho ho'
    simp only [ArrowArray.value_length, ho, ho']

/-- C10, run on the list offsets [0, 2, 2, 5] over an inner array of five
strings (six value offsets): the three entries have lengths 2, 0 and 3, which
add up to the length 5 of the inner array. -/
theorem C10_list_of_string_array_witness :
    ∃ outer inner,
      build_arrow_array_from_buffer sample_world
        (char_buffer "alleles" (some ⟨9, ascii "ACGTTAGCA"⟩)
          (some ⟨24, int32_bytes [0, 1, 2, 4, 8, 9]⟩) (some ⟨16, int32_bytes [0, 2, 2, 5]⟩) none)
        3 6 9 = .ok outer ∧
      outer.values = some inner ∧ outer.length = 3 ∧ inner.length = 5 ∧
      inner.null_bitmap = none ∧
      outer.value_length 0 = some 2 ∧ outer.value_length 1 = some 0 ∧
      outer.value_length 2 = some 3 ∧ (2 : Int) + 0 + 3 = inner.length := by
  obtain ⟨outer, inner, hbuild, _, _, hlen, hvals, hinner, hnull, _, hvl⟩ :=
    C10_list_of_string_array sample_world
      (char_buffer "alleles" (some ⟨9, ascii "ACGTTAGCA"⟩)
        (some ⟨24, int32_bytes [0, 1, 2, 4, 8, 9]⟩) (some ⟨16, int32_bytes [0, 2, 2, 5]⟩) none)
      3 6 9 ⟨16, int32_bytes [0, 2, 2, 5]⟩ rfl rfl (by decide) (by decide)
  refine ⟨outer, inner, hbuild, hvals, hlen, ?_, hnull, ?_, ?_, ?_, ?_⟩
  · rw [hinner]; decide
  · exact hvl 0 (by decide) 0 2 (by decide) (by decide)
  · exact hvl 1 (by decide) 2 2 (by decide) (by decide)
  · exact hvl 2 (by decide) 2 5 (by decide) (by decide)
  · rw [hinner]; decide


/-! ## Claims on the declared and the built layout -/

theorem fill_buffer_char (w : World) (sz : Int) (attr : String) (t : AttrType) (b : BufferInfo)
    (hchar : t.datatype = TILEDB_VCF_CHAR) (h : fill_buffer w sz attr t = .ok b) :
    b.datatype = TILEDB_VCF_CHAR ∧ b.arrow_datatype = DataType.utf8 ∧
      b.arrow_array_datatype
        = (if t.list = 1 then DataType.list DataType.utf8 else DataType.utf8) ∧
      (b.list_offsets.isSome = true ↔ t.list = 1) ∧
      ∃ arr, b.array = some arr ∧
        build_arrow_array_from_buffer w b (speculative_count sz ⟨1⟩) (speculative_count sz ⟨1⟩)
          (speculative_count sz ⟨1⟩) = .ok arr := by
  obtain ⟨d, v, n, l⟩ := t
  simp only at hchar
  subst hchar
  by_cases ha : w.alloc_ok sz = true
  · by_cases hv : v = 1 <;> by_cases hl : l = 1 <;> by_cases hn : n = 1 <;>
      simp [fill_buffer, to_numpy_dtype, to_arrow_datatype, alloc_data, alloc_offsets,
        alloc_list_offsets, alloc_bitmap, set_array, AllocateBuffer, ha, hv, hl, hn,
        build_arrow_array_from_buffer, bind, Except.bind, BufferInfo.value_init] at h ⊢ <;>
      subst h <;> simp
  · simp [fill_buffer, to_numpy_dtype, to_arrow_datatype, alloc_data, AllocateBuffer, ha,
      bind, Except.bind] at h

theorem char_array_type (w : World) (b : BufferInfo) (count num_offsets num_data_elements : Nat)
    (hd : b.datatype = TILEDB_VCF_CHAR) :
    ∃ arr, build_arrow_array_from_buffer w b count num_offsets num_data_elements = .ok arr ∧
      arr.type = (if b.list_offsets.isSome then DataType.list b.arrow_datatype
        else DataType.utf8) := by
  unfold build_arrow_array_from_buffer
  rw [hd]
  cases hl : b.list_offsets with
  | none => exact ⟨_, rfl, rfl⟩
  | some lo => exact ⟨_, rfl, rfl⟩

theorem char_layout (w : World) (sz : Int) (attr : String) (t : AttrType) (b : BufferInfo)
    (hchar : t.datatype = TILEDB_VCF_CHAR) (hfill : fill_buffer w sz attr t = .ok b)
    (count num_offsets num_data_elements : Nat) :
    ∃ arr, build_arrow_array_from_buffer w b count num_offsets num_data_elements = .ok arr ∧
      arr.type = b.arrow_array_datatype ∧
      (b.list_offsets.isSome = true ↔ arr.type = DataType.list DataType.utf8) ∧
      (b.list_offsets.isSome = false ↔ arr.type = DataType.utf8) := by
  obtain ⟨hd, had, haad, hlo, _⟩ := fill_buffer_char w sz attr t b hchar hfill
  obtain ⟨arr, hb, ht⟩ := char_array_type w b count num_offsets num_data_elements hd
  refine ⟨arr, hb, ?_, ?_, ?_⟩
  · rw [ht, haad, had]
    by_cases hl : t.list = 1
    · simp [hl, hlo.mpr hl]
    · have : b.list_offsets.isSome = false := by
        cases h : b.list_offsets.isSome
        · rfl
        · exact absurd (hlo.mp h) hl
      simp [hl, this]
  · rw [ht, had]
    cases b.list_offsets.isSome <;> simp
  · rw [ht, had]
    cases b.list_offsets.isSome <;> simp

theorem char_column_type (w : World) (sz : Int) (attr : String) (t : AttrType) (b : BufferInfo)
    (hchar : t.datatype = TILEDB_VCF_CHAR) (hfill : fill_buffer w sz attr t = .ok b)
    (num_records : Int) (arr : ArrowArray) (hcol : Column w num_records b arr) :
    arr.type = b.arrow_array_datatype := by
  obtain ⟨no, nd, nb, _, hb⟩ := hcol
  obtain ⟨arr', hb', ht, _⟩ := char_layout w sz attr t b hchar hfill (to_uint64 num_records)
    (to_uint64 no) (to_uint64 nd)
  rw [hb] at hb'
  cases hb'
  exact ht

theorem get_results_arrow_ok_inv (w : World) (r : Reader) (table : Table)
    (h : get_results_arrow w r = .ok table) :
    table.schema = r.buffers_.map (fun b => (⟨b.attr_name, b.arrow_array_datatype⟩ : Field)) ∧
      List.Forall₂ (Column w table.num_rows) r.buffers_ table.columns := by
  unfold get_results_arrow at h
  cases hrec : result_num_records w with
  | error e => simp [hrec] at h
  | ok num_records =>
    simp only [hrec] at h
    cases hloop : results_loop w num_records r.buffers_ [] [] with
    | error e => simp [hloop] at h
    | ok out =>
      obtain ⟨fields, arrays⟩ := out
      simp only [hloop] at h
      obtain ⟨hfs, fresh, hcols, hall⟩ :=
        results_loop_ok_inv w num_records r.buffers_ _ _ _ _ hloop
      simp only [List.nil_append] at hfs hcols
      cases hv : w.table_validate ⟨fields, arrays, num_records⟩ with
      | some msg => simp [hv] at h
      | none =>
        simp only [hv] at h
        by_cases hw : w.wrap_table_null ⟨fields, arrays, num_records⟩ = true
        · simp [hw] at h
        · simp only [hw] at h
          cases h
          exact ⟨hfs, by rw [hcols]; exact hall⟩

theorem forall₂_index {α β : Type} {R : α → β → Prop} {xs : List α} {ys : List β}
    (h : List.Forall₂ R xs ys) :
    ∀ (i : Nat) (x : α), xs[i]? = some x → ∃ y, ys[i]? = some y ∧ R x y := by
  induction h with
  | nil => intro i x hx; simp at hx
  | cons hxy _ ih =>
    intro i x hx
    cases i with
    | zero =>
      simp only [List.getElem?_cons_zero, Option.some.injEq] at hx
      subst hx
      exact ⟨_, by simp, hxy⟩
    | succ j =>
      simp only [List.getElem?_cons_succ] at hx
      obtain ⟨y, hy, hR⟩ := ih j x hx
      exact ⟨y, by simpa using hy, hR⟩

/-- The schema field and the column `get_results_arrow` makes for the Buffer
Set at position `i` of the pool, for a Buffer Set the allocation loop made for
a char attribute. -/
theorem char_schema_field (w : World) (sz : Int) (attr : String) (t : AttrType)
    (b : BufferInfo) (hchar : t.datatype = TILEDB_VCF_CHAR)
    (hfill : fill_buffer w sz attr t = .ok b) (r : Reader) (table : Table) (i : Nat)
    (hres : get_results_arrow w r = .ok table) (hget : r.buffers_[i]? = some b) :
    ∃ field col, table.schema[i]? = some field ∧ table.columns[i]? = some col ∧
      field.name = b.attr_name ∧ field.type = b.arrow_array_datatype ∧
      col.type = field.type := by
  obtain ⟨hschema, hcols⟩ := get_results_arrow_ok_inv w r table hres
  obtain ⟨col, hcol, hC⟩ := forall₂_index hcols i b hget
  refine ⟨⟨b.attr_name, b.arrow_array_datatype⟩, col, ?_, hcol, rfl, rfl, ?_⟩
  · rw [hschema, List.getElem?_map, hget]
    rfl
  · exact char_column_type w sz attr t b hchar hfill _ col hC

/-- C11: for every char attribute and every combination of the flags, the
Buffer Set `alloc_buffers` makes records as `arrow_array_datatype` string, or
list of string when the list flag is 1; the speculative array it stores has
that type, and every array `build_arrow_array_from_buffer` later builds from
the Buffer Set, whatever the counts, has that type (string, or list of string
exactly when the list-offsets region exists). Whenever `get_results_arrow`
returns a table for a pool that holds the Buffer Set at position `i`, the
field at position `i` of the schema of the table is named by the attribute and
has the recorded type, and the column at position `i` has the type of that
field. In particular, after a successful `alloc_buffers`, in the table
`get_results_arrow` returns the field and the column of every char attribute
requested have one type, string or list of string by the list flag the engine
reports for the attribute. -/
theorem C11_declared_layout_is_built_layout (w : World) (sz : Int) (attr : String)
    (t : AttrType) (b : BufferInfo) (hchar : t.datatype = TILEDB_VCF_CHAR)
    (hfill : fill_buffer w sz attr t = .ok b) :
    b.arrow_array_datatype
        = (if t.list = 1 then DataType.list DataType.utf8 else DataType.utf8) ∧
      (∃ arr, b.array = some arr ∧ arr.type = b.arrow_array_datatype) ∧
      (∀ count num_offsets num_data_elements, ∃ arr,
        build_arrow_array_from_buffer w b count num_offsets num_data_elements = .ok arr ∧
        arr.type = b.arrow_array_datatype ∧
        (b.list_offsets.isSome = true ↔ arr.type = DataType.list DataType.utf8) ∧
        (b.list_offsets.isSome = false ↔ arr.type = DataType.utf8)) ∧
      (∀ num_records arr, Column w num_records b arr →
        arr.type = (⟨b.attr_name, b.arrow_array_datatype⟩ : Field).type) ∧
      (∀ (r : Reader) (table : Table) (i : Nat), get_results_arrow w r = .ok table →
        r.buffers_[i]? = some b →
        ∃ field col, table.schema[i]? = some field ∧ table.columns[i]? = some col ∧
          field.name = b.attr_name ∧ field.type = b.arrow_array_datatype ∧
          col.type = field.type) ∧
      (∀ (r r' : Reader) (release_buffs : Bool) (table : Table) (j : Nat) (a : String)
          (ta : AttrType),
        alloc_buffers w r release_buffs = (r', .ok ()) → get_results_arrow w r' = .ok table →
        r.attributes_[j]? = some a → w.get_attribute_type a = .ok ta →
        ta.datatype = TILEDB_VCF_CHAR →
        ∃ field col,
          table.schema[(if release_buffs then [] else r.buffers_).length + j]?
            = some field ∧
          table.columns[(if release_buffs then [] else r.buffers_).length + j]?
            = some col ∧
          field.name = a ∧
          field.type = (if ta.list = 1 then DataType.list DataType.utf8 else DataType.utf8) ∧
          col.type = field.type) := by
  obtain ⟨hd, had, haad, hlo, arr0, harr0, hbuild0⟩ := fill_buffer_char w sz attr t b hchar hfill
  refine ⟨haad, ?_, char_layout w sz attr t b hchar hfill, ?_, ?_, ?_⟩
  · obtain ⟨arr, hb, ht, _⟩ := char_layout w sz attr t b hchar hfill
      (speculative_count sz ⟨1⟩) (speculative_count sz ⟨1⟩) (speculative_count sz ⟨1⟩)
    refine ⟨arr0, harr0, ?_⟩
    rw [hbuild0] at hb
    cases hb
    exact ht
  · intro num_records arr hcol
    exact char_column_type w sz attr t b hchar hfill num_records arr hcol
  · intro r table i hres hget
    exact char_schema_field w sz attr t b hchar hfill r table i hres hget
  · intro r r' release_buffs table j a ta hok hres hj hta hca
    obtain ⟨m, fresh, _, _, _, hb, hall⟩ := alloc_buffers_ok_inv w r r' release_buffs hok
    obtain ⟨b', hb', tb, htb, hfb⟩ := forall₂_index hall j a hj
    have e : tb = ta := Except.ok.inj (htb.symm.trans hta)
    subst e
    have hget : r'.buffers_[(if release_buffs then [] else r.buffers_).length + j]?
        = some b' := by
      rw [hb, List.getElem?_append_right (by omega)]
      simpa using hb'
    obtain ⟨field, col, hf, hc, hname, htype, hct⟩ :=
      char_schema_field w _ a tb b' hca hfb r' table _ hres hget
    obtain ⟨_, _, hn', _⟩ := fill_buffer_ok_props w _ a tb b' hfb
    obtain ⟨_, _, haad', _⟩ := fill_buffer_char w _ a tb b' hca hfb
    exact ⟨field, col, hf, hc, by rw [hname]; exact hn', by rw [htype, haad'], hct⟩

/-- C11, run on the sample session with the budget 0 (10-byte regions): for
the attribute `alleles` (char, variable-length, list) list of string is
declared, the speculative array is a list of string, and in the table
`get_results_arrow` returns after `alloc_buffers` the field `alleles` and its
column are both list of string. -/
theorem C11_declared_layout_is_built_layout_witness :
    ∃ b table, fill_buffer sample_world 10 "alleles" ⟨TILEDB_VCF_CHAR, 1, 0, 1⟩ = .ok b ∧
      get_results_arrow sample_world
        (alloc_buffers sample_world { sample_reader with mem_budget_mb_ := 0 } true).1
        = .ok table ∧
      b.arrow_array_datatype = DataType.list DataType.utf8 ∧
      (∃ arr, b.array = some arr ∧ arr.type = b.arrow_array_datatype) ∧
      (∃ field col, table.schema[0]? = some field ∧ table.columns[0]? = some col ∧
        field.name = b.attr_name ∧ field.type = b.arrow_array_datatype ∧
        col.type = field.type) ∧
      (∃ field col, table.schema[0]? = some field ∧ table.columns[0]? = some col ∧
        field.name = "alleles" ∧ field.type = DataType.list DataType.utf8 ∧
        col.type = field.type) := by
  have hb : ∃ b, fill_buffer sample_world 10 "alleles" ⟨TILEDB_VCF_CHAR, 1, 0, 1⟩ = .ok b ∧
      (alloc_buffers sample_world { sample_reader with mem_budget_mb_ := 0 } true).1.buffers_[0]?
        = some b := ⟨_, rfl, rfl⟩
  have ht : ∃ table, get_results_arrow sample_world
      (alloc_buffers sample_world { sample_reader with mem_budget_mb_ := 0 } true).1
        = .ok table := ⟨_, rfl⟩
  obtain ⟨b, hfill, hget⟩ := hb
  obtain ⟨table, hres⟩ := ht
  have h := C11_declared_layout_is_built_layout sample_world 10 "alleles"
    ⟨TILEDB_VCF_CHAR, 1, 0, 1⟩ b rfl hfill
  refine ⟨b, table, hfill, hres, h.1, h.2.1, h.2.2.2.2.1 _ table 0 hres hget, ?_⟩
  have h6 := h.2.2.2.2.2 { sample_reader with mem_budget_mb_ := 0 }
    (alloc_buffers sample_world { sample_reader with mem_budget_mb_ := 0 } true).1 true table 0
    "alleles" ⟨TILEDB_VCF_CHAR, 1, 0, 1⟩ rfl hres rfl rfl rfl
  simpa using h6

/-! ## Claims on the total size of the pool -/

/-- The number of regions the counting loop of `alloc_buffers` adds for an
attribute type. -/
theorem count_buffers_cons (w : World) (attr : String) (t : AttrType)
    (ht : w.get_attribute_type attr = .ok t) (rest : List String) (n : Int) :
    count_buffers w (attr :: rest) n = count_buffers w rest
      (n + 1 + (if t.var_len ≠ 0 then 1 else 0) + (if t.nullable ≠ 0 then 1 else 0)
        + (if t.list ≠ 0 then 1 else 0)) := by
  simp only [count_buffers, ht]

theorem fill_buffer_regions_any (w : World) (sz : Int) (attr : String) (t : AttrType)
    (b : BufferInfo)
    (h : fill_buffer w sz attr t = .ok b ∨ ∃ e, fill_buffer w sz attr t = .error (b, e)) :
    (∀ x ∈ b.regions, x.size = sz) ∧
      (b.regions.length : Int) ≤ 1 + (if t.var_len ≠ 0 then 1 else 0)
        + (if t.nullable ≠ 0 then 1 else 0) + (if t.list ≠ 0 then 1 else 0) := by
  obtain ⟨d, v, n, l⟩ := t
  rcases h with h | ⟨e, h⟩
  · obtain ⟨_, _, _, _, hd, ho, hl, hb⟩ := fill_buffer_ok_props w sz attr _ b h
    simp only at ho hl hb
    constructor
    · intro x hx
      simp only [BufferInfo.regions, hd, ho, hl, hb] at hx
      split_ifs at hx <;> simp at hx <;> rcases hx with rfl | hx <;> simp_all
    · simp only [BufferInfo.regions, hd, ho, hl, hb]
      split_ifs <;> simp <;> omega
  · by_cases ha : w.alloc_ok sz = true
    · cases d <;> by_cases hv : v = 1 <;> by_cases hl : l = 1 <;> by_cases hn : n = 1 <;>
        simp [fill_buffer, to_numpy_dtype, to_arrow_datatype, alloc_data, alloc_offsets,
          alloc_list_offsets, alloc_bitmap, set_array, AllocateBuffer, ha, hv, hl, hn,
          build_arrow_array_from_buffer, bind, Except.bind, BufferInfo.value_init] at h <;>
        (obtain ⟨rfl, _⟩ := h; simp [BufferInfo.regions]; try split_ifs <;> omega)
    · cases d <;>
        simp [fill_buffer, to_numpy_dtype, to_arrow_datatype, alloc_data, AllocateBuffer, ha,
          bind, Except.bind, BufferInfo.value_init] at h <;>
        (obtain ⟨rfl, _⟩ := h; simp [BufferInfo.regions]; try split_ifs <;> omega)

theorem sum_sizes (sz : Int) (l : List Buffer) (h : ∀ x ∈ l, x.size = sz) :
    (l.map Buffer.size).sum = sz * l.length := by
  induction l with
  | nil => simp
  | cons x rest ih =>
    have hx := h x (List.mem_cons_self _ _)
    have := ih (fun y hy => h y (List.mem_cons_of_mem _ hy))
    simp only [List.map_cons, List.sum_cons, List.length_cons, Nat.cast_add, Nat.cast_one, hx,
      this]
    ring

theorem alloc_loop_bytes (w : World) (sz : Int) (hsz : 0 ≤ sz) (attrs : List String) :
    ∀ (bufs : List BufferInfo) (n m : Int), count_buffers w attrs n = .ok m →
      ∃ fresh, (alloc_loop w sz attrs bufs).1 = bufs ++ fresh ∧
        pool_bytes fresh ≤ sz * (m - n) := by
  induction attrs with
  | nil =>
    intro bufs n m hc
    simp only [count_buffers, Except.ok.injEq] at hc
    exact ⟨[], by simp [alloc_loop], by simp [pool_bytes, hc]⟩
  | cons a rest ih =>
    intro bufs n m hc
    cases ht : w.get_attribute_type a with
    | error msg => simp [count_buffers, ht] at hc
    | ok t =>
      rw [count_buffers_cons w a t ht] at hc
      have hge := count_buffers_ge w rest _ m hc
      have hlen : (0 : Int) ≤ rest.length := Int.natCast_nonneg _
      cases hf : fill_buffer w sz a t with
      | error e =>
        obtain ⟨back, e⟩ := e
        obtain ⟨hsize, hcount⟩ := fill_buffer_regions_any w sz a t back (Or.inr ⟨e, hf⟩)
        refine ⟨[back], by simp [alloc_loop, ht, hf], ?_⟩
        simp only [pool_bytes, List.map_cons, List.map_nil, List.sum_cons, List.sum_nil,
          add_zero, sum_sizes sz _ hsize]
        apply mul_le_mul_of_nonneg_left _ hsz
        omega
      | ok back =>
        obtain ⟨hsize, hcount⟩ := fill_buffer_regions_any w sz a t back (Or.inl hf)
        obtain ⟨fresh, hout, hbytes⟩ := ih (bufs ++ [back]) _ m hc
        refine ⟨back :: fresh, by simp [alloc_loop, ht, hf, hout], ?_⟩
        have hb : pool_bytes (back :: fresh) = sz * back.regions.length + pool_bytes fresh := by
          simp only [pool_bytes, List.map_cons, List.sum_cons, sum_sizes sz _ hsize]
        rw [hb]
        have h1 : sz * (back.regions.length : Int) ≤ sz * (1 + (if t.var_len ≠ 0 then 1 else 0)
            + (if t.nullable ≠ 0 then 1 else 0) + (if t.list ≠ 0 then 1 else 0)) :=
          mul_le_mul_of_nonneg_left hcount hsz
        have h2 : sz * (1 + (if t.var_len ≠ 0 then 1 else 0)
            + (if t.nullable ≠ 0 then 1 else 0) + (if t.list ≠ 0 then 1 else 0))
            + sz * (m - (n + 1 + (if t.var_len ≠ 0 then 1 else 0)
              + (if t.nullable ≠ 0 then 1 else 0) + (if t.list ≠ 0 then 1 else 0)))
            = sz * (m - n) := by ring
        linarith

theorem alloc_size_bytes_share (mb m : Int) (hpos : 0 < mb) (hint32 : mb < 2 ^ 31)
    (hm : 0 < m) :
    0 ≤ alloc_size_bytes mb m ∧ alloc_size_bytes mb m * m ≤ mb / 3 * 1024 * 1024 := by
  have hb : budget_mb mb = mb / 3 := by
    rw [budget_mb_eq_tdiv mb (by norm_num; omega) hint32]
    exact Int.tdiv_eq_ediv (by omega) (by norm_num)
  have hnum : 0 ≤ mb / 3 * 1024 * 1024 := by
    have : 0 ≤ mb / 3 := Int.ediv_nonneg (by omega) (by norm_num)
    omega
  have hsz : alloc_size_bytes mb m = mb / 3 * 1024 * 1024 / m := by
    unfold alloc_size_bytes
    rw [if_neg (by omega), hb]
    exact Int.tdiv_eq_ediv hnum (by omega)
  rw [hsz]
  exact ⟨Int.ediv_nonneg hnum (by omega), Int.ediv_mul_le _ (by omega)⟩

/-- C12: for every budget `mb > 0` and every attribute list and flags, the
byte sizes of all regions one call of `alloc_buffers` allocates (the Buffer
Sets it appends to the pool it starts from, whether the call completes or
throws on the way) add up to at most `floor (mb / 3) * 1024 * 1024`, the
one-third share of the buffer pool, and so to at most one third of the whole
budget in bytes. -/
theorem C12_pool_within_share (w : World) (r : Reader) (release_buffs : Bool)
    (hpos : 0 < r.mem_budget_mb_) (hint32 : r.mem_budget_mb_ < 2 ^ 31) :
    ∃ fresh, (alloc_buffers w r release_buffs).1.buffers_
        = kept_pool w r release_buffs ++ fresh ∧
      pool_bytes fresh ≤ r.mem_budget_mb_ / 3 * 1024 * 1024 ∧
      3 * pool_bytes fresh ≤ r.mem_budget_mb_ * 1024 * 1024 := by
  have hthird : ∀ x : Int, x ≤ r.mem_budget_mb_ / 3 * 1024 * 1024 →
      x ≤ r.mem_budget_mb_ / 3 * 1024 * 1024 ∧ 3 * x ≤ r.mem_budget_mb_ * 1024 * 1024 := by
    intro x hx
    exact ⟨hx, by omega⟩
  have hzero : (0 : Int) ≤ r.mem_budget_mb_ / 3 * 1024 * 1024 := by
    have : 0 ≤ r.mem_budget_mb_ / 3 := Int.ediv_nonneg (by omega) (by norm_num)
    omega
  have key : ∀ r1 : Reader, r1.attributes_ = r.attributes_ →
      r1.mem_budget_mb_ = r.mem_budget_mb_ →
      ∃ fresh,
        (match count_buffers w r1.attributes_ 0 with
          | .error e => (r1, Except.error e)
          | .ok num_buffers =>
            if num_buffers = 0 then (r1, .ok ())
            else
              let out := alloc_loop w (alloc_size_bytes r1.mem_budget_mb_ num_buffers)
                r1.attributes_ r1.buffers_
              ({ r1 with buffers_ := out.1 }, out.2)).1.buffers_ = r1.buffers_ ++ fresh ∧
        pool_bytes fresh ≤ r.mem_budget_mb_ / 3 * 1024 * 1024 := by
    intro r1 h1 h2
    rw [h1, h2]
    cases hc : count_buffers w r.attributes_ 0 with
    | error e => exact ⟨[], by simp, by simpa [pool_bytes] using hzero⟩
    | ok m =>
      by_cases hm0 : m = 0
      · exact ⟨[], by simp [hm0], by simpa [pool_bytes] using hzero⟩
      · have hge := count_buffers_ge w r.attributes_ 0 m hc
        have hlen : (0 : Int) ≤ r.attributes_.length := Int.natCast_nonneg _
        have hm : 0 < m := by omega
        obtain ⟨hnn, hshare⟩ := alloc_size_bytes_share r.mem_budget_mb_ m hpos hint32 hm
        obtain ⟨fresh, hout, hbytes⟩ := alloc_loop_bytes w
          (alloc_size_bytes r.mem_budget_mb_ m) hnn r.attributes_ r1.buffers_ 0 m hc
        refine ⟨fresh, by simp [hm0, hout], ?_⟩
        rw [sub_zero] at hbytes
        exact le_trans hbytes hshare
  unfold alloc_buffers kept_pool
  cases release_buffs with
  | false =>
    obtain ⟨fresh, hf, hb⟩ := key r rfl rfl
    exact ⟨fresh, by simpa using hf, hthird _ hb⟩
  | true =>
    cases hr : w.reset_buffers with
    | some msg =>
      exact ⟨[], by simp [release_buffers, hr], hthird _ (by simpa [pool_bytes] using hzero)⟩
    | none =>
      obtain ⟨fresh, hf, hb⟩ := key { r with buffers_ := [] } rfl rfl
      refine ⟨fresh, ?_, hthird _ hb⟩
      simp only [if_true, release_buffers, hr]
      simpa using hf

/-- C12, run on the sample session with the default budget of 2048 MB: the
seven regions take at most 682 MB. -/
theorem C12_pool_within_share_witness :
    ∃ fresh, (alloc_buffers sample_world sample_reader true).1.buffers_
        = kept_pool sample_world sample_reader true ++ fresh ∧
      pool_bytes fresh ≤ 2048 / 3 * 1024 * 1024 ∧
      3 * pool_bytes fresh ≤ 2048 * 1024 * 1024 :=
  C12_pool_within_share sample_world sample_reader true (by decide) (by decide)

/-! ## Claims on the read cycle -/

theorem foldl_enable (attrs : List String) :
    ∀ acc : Bool, attrs.foldl
      (fun af_filter_enabled attr =>
        if attr = "info_TILEDB_IAF" then true else af_filter_enabled) acc
      = (acc || decide ("info_TILEDB_IAF" ∈ attrs)) := by
  induction attrs with
  | nil => intro acc; simp
  | cons a rest ih =>
    intro acc
    simp only [List.foldl_cons, ih, List.mem_cons]
    by_cases h : a = "info_TILEDB_IAF"
    · simp [h]
    · have h' : ¬ "info_TILEDB_IAF" = a := fun e => h e.symm
      simp [h, h']

theorem enable_af_filter_eq (attrs : List String) (e : Bool) :
    enable_af_filter attrs e = (e || decide ("info_TILEDB_IAF" ∈ attrs)) := by
  unfold enable_af_filter
  cases e
  · simp only [Bool.not_false, if_true, foldl_enable]
  · simp

theorem foldl_missing (attrs : List String) :
    ∀ flags : Bool × Bool, attrs.foldl
      (fun flags attr =>
        (flags.1 && decide (attr ≠ "alleles"), flags.2 && decide (attr ≠ "fmt_GT"))) flags
      = (flags.1 && decide ("alleles" ∉ attrs), flags.2 && decide ("fmt_GT" ∉ attrs)) := by
  induction attrs with
  | nil => intro flags; simp
  | cons a rest ih =>
    intro flags
    simp only [List.foldl_cons, ih, List.mem_cons, not_or]
    have e1 : decide (a ≠ "alleles") = decide (¬ "alleles" = a) := by
      congr 1; exact propext ⟨fun h e => h e.symm, fun h e => h e.symm⟩
    have e2 : decide (a ≠ "fmt_GT") = decide (¬ "fmt_GT" = a) := by
      congr 1; exact propext ⟨fun h e => h e.symm, fun h e => h e.symm⟩
    rw [e1, e2]
    simp [Bool.and_assoc, Bool.decide_and]

theorem augment_attributes_eq (attrs : List String) (e : Bool) :
    augment_attributes attrs (enable_af_filter attrs e) = augmentation_described e attrs := by
  unfold augment_attributes augmentation_described missing_af_attributes
  rw [enable_af_filter_eq, foldl_missing]
  by_cases hen : e = true ∨ "info_TILEDB_IAF" ∈ attrs
  · have h1 : (e || decide ("info_TILEDB_IAF" ∈ attrs)) = true := by
      rcases hen with h | h <;> simp [h]
    simp only [h1, if_true, hen, Bool.true_and]
    by_cases ha : "alleles" ∈ attrs <;> by_cases hg : "fmt_GT" ∈ attrs <;> simp [ha, hg]
  · have h1 : (e || decide ("info_TILEDB_IAF" ∈ attrs)) = false := by
      simp only [not_or] at hen
      simp [hen.1, hen.2]
    simp [h1, hen]

theorem alloc_buffers_attributes (w : World) (r : Reader) (release_buffs : Bool) :
    (alloc_buffers w r release_buffs).1.attributes_ = r.attributes_ := by
  have key : ∀ r1 : Reader,
      (match count_buffers w r1.attributes_ 0 with
        | .error e => (r1, Except.error e)
        | .ok num_buffers =>
          if num_buffers = 0 then (r1, .ok ())
          else
            let out := alloc_loop w (alloc_size_bytes r1.mem_budget_mb_ num_buffers)
              r1.attributes_ r1.buffers_
            ({ r1 with buffers_ := out.1 }, out.2)).1.attributes_ = r1.attributes_ := by
    intro r1
    cases count_buffers w r1.attributes_ 0 with
    | error e => rfl
    | ok m => by_cases hm : m = 0 <;> simp [hm]
  unfold alloc_buffers
  cases release_buffs with
  | false => simpa using key r
  | true =>
    cases hr : w.reset_buffers with
    | some msg => simp [release_buffers, hr]
    | none =>
      simp only [if_true, release_buffers, hr]
      exact key { r with buffers_ := [] }

theorem read_attributes (w : ReadWorld) (r : Reader) (release_buffs : Bool) (e : Bool)
    (he : w.get_af_filter_exists = some e) :
    (read w r release_buffs).1.attributes_ = augmentation_described e r.attributes_ := by
  have ha := alloc_buffers_attributes w.toWorld
    { r with attributes_ := augment_attributes r.attributes_ (enable_af_filter r.attributes_ e) }
    release_buffs
  rw [augment_attributes_eq] at ha
  simp only at ha
  unfold read
  simp only [he, augment_attributes_eq]
  generalize alloc_buffers w.toWorld
    { r with attributes_ := augmentation_described e r.attributes_ } release_buffs = out at ha ⊢
  obtain ⟨r1, res⟩ := out
  simp only at ha
  cases res with
  | error err => exact ha
  | ok u =>
    simp only
    cases set_buffers w r1.buffers_ with
    | error err => exact ha
    | ok u2 =>
      simp only
      cases w.reader_read r1.buffers_ with
      | error msg => exact ha
      | ok written =>
        simp only
        cases w.get_status with
        | error msg => exact ha
        | ok status =>
          simp only
          split_ifs <;> exact ha

theorem augmentation_described_prefix (e : Bool) (attrs : List String) :
    attrs <+: augmentation_described e attrs := by
  unfold augmentation_described
  by_cases hen : e = true ∨ "info_TILEDB_IAF" ∈ attrs
  · rw [if_pos hen, List.append_assoc]
    exact List.prefix_append _ _
  · rw [if_neg hen]

theorem augmentation_described_twice (e e2 : Bool) (attrs : List String)
    (h : e2 = true → e = true ∨ "info_TILEDB_IAF" ∈ attrs) :
    augmentation_described e2 (augmentation_described e attrs)
      = augmentation_described e attrs := by
  by_cases hen : e = true ∨ "info_TILEDB_IAF" ∈ attrs
  · have h1 : "alleles" ∈ augmentation_described e attrs := by
      unfold augmentation_described
      by_cases ha : "alleles" ∈ attrs <;> simp [hen, ha]
    have h2 : "fmt_GT" ∈ augmentation_described e attrs := by
      unfold augmentation_described
      by_cases hg : "fmt_GT" ∈ attrs <;> simp [hen, hg]
    generalize augmentation_described e attrs = out at h1 h2
    unfold augmentation_described
    simp [h1, h2]
  · have hout : augmentation_described e attrs = attrs := by
      unfold augmentation_described
      simp [hen]
    rw [hout]
    have he2 : ¬ e2 = true := fun h2 => hen (h h2)
    unfold augmentation_described
    simp only [not_or] at hen
    simp [he2, hen.2]

/-- C13: the attribute augmentation at the start of `read` is an append of
what is missing. When the engine reports an AF filter or the attribute list
names `info_TILEDB_IAF`, the list after `read` is the old list followed by
`alleles` if it was absent and then `fmt_GT` if it was absent; otherwise it is
the old list. So the old list is a prefix of the new one (the order of the
existing attributes is kept), and a second `read` adds nothing, the engine
reporting an AF filter then only if one existed or was set at the first
`read`. -/
theorem C13_augmentation_appends_missing (w : ReadWorld) (r : Reader) (release_buffs : Bool)
    (e : Bool) (he : w.get_af_filter_exists = some e) :
    (read w r release_buffs).1.attributes_ = augmentation_described e r.attributes_ ∧
      (read w r release_buffs).1.attributes_
        = (if e = true ∨ "info_TILEDB_IAF" ∈ r.attributes_ then
            r.attributes_ ++ (if "alleles" ∈ r.attributes_ then [] else ["alleles"])
              ++ (if "fmt_GT" ∈ r.attributes_ then [] else ["fmt_GT"])
          else r.attributes_) ∧
      r.attributes_ <+: (read w r release_buffs).1.attributes_ ∧
      ∀ (w2 : ReadWorld) (release_buffs2 : Bool),
        (w2.get_af_filter_exists = some true → e = true ∨ "info_TILEDB_IAF" ∈ r.attributes_) →
        (read w2 (read w r release_buffs).1 release_buffs2).1.attributes_
          = (read w r release_buffs).1.attributes_ := by
  have h1 := read_attributes w r release_buffs e he
  refine ⟨h1, h1, ?_, ?_⟩
  · rw [h1]; exact augmentation_described_prefix e r.attributes_
  · intro w2 release_buffs2 h2
    cases he2 : w2.get_af_filter_exists with
    | none => simp [read, he2]
    | some e2 =>
      rw [read_attributes w2 _ release_buffs2 e2 he2, h1]
      apply augmentation_described_twice
      intro ht
      subst ht
      exact h2 he2

/-- C13, run on the sample engine (no AF filter) with the attributes
`info_TILEDB_IAF` and `fmt_GT`: `alleles` is appended, and a second `read`
leaves the list as it is. -/
theorem C13_augmentation_appends_missing_witness :
    (read sample_read_world
        { Reader.new with attributes_ := ["info_TILEDB_IAF", "fmt_GT"] } true).1.attributes_
        = ["info_TILEDB_IAF", "fmt_GT", "alleles"] ∧
      (read sample_read_world
        (read sample_read_world
          { Reader.new with attributes_ := ["info_TILEDB_IAF", "fmt_GT"] } true).1
        true).1.attributes_ = ["info_TILEDB_IAF", "fmt_GT", "alleles"] :=
  have h := C13_augmentation_appends_missing sample_read_world
    { Reader.new with attributes_ := ["info_TILEDB_IAF", "fmt_GT"] } true false rfl
  ⟨h.1.trans (by decide),
    (h.2.2.2 sample_read_world true (fun _ => Or.inr (by decide))).trans (h.1.trans (by decide))⟩

/-! ## The speculative array of a char list attribute -/

/-- The speculative array of a char attribute with the list flag: a list
array of `count` entries over a string array of `count - 1` entries computed
on `uint64_t`, where `count` is `alloc_size_bytes` as a `size_t`. -/
theorem speculative_char_list_array (w : World) (sz : Int) (attr : String) (t : AttrType)
    (b : BufferInfo) (hchar : t.datatype = TILEDB_VCF_CHAR) (hlist : t.list = 1)
    (hfill : fill_buffer w sz attr t = .ok b) :
    ∃ lo, b.list_offsets = some lo ∧
      b.array = some (ArrowArray.list (DataType.list DataType.utf8)
        (to_int64 (to_uint64 (Int.tdiv sz 1))) (some lo)
        (ArrowArray.string (to_int64 (uint64_sub (to_uint64 (Int.tdiv sz 1)) 1))
          b.offsets b.data none) b.bitmap) := by
  obtain ⟨hd, had, _, hlo, arr, harr, hbuild⟩ := fill_buffer_char w sz attr t b hchar hfill
  have hsome := hlo.mpr hlist
  cases hl : b.list_offsets with
  | none => rw [hl] at hsome; exact absurd hsome (by simp)
  | some lo =>
    refine ⟨lo, rfl, ?_⟩
    rw [harr]
    unfold build_arrow_array_from_buffer at hbuild
    simp only [hd, hl, had, Except.ok.injEq] at hbuild
    rw [← hbuild]
    rfl

/-- For regions of `sz` bytes (`0 <= sz < 2 ^ 63`) the speculative array of a
char attribute with both offsets regions has an inner string array of
`sz - 1` entries over a value-offsets region of `sz` bytes: the length is -1
for `sz = 0`, and for `sz >= 1` its offsets take `4 * sz` bytes, more than the
region holds. -/
theorem speculative_offsets_exceed_region (w : World) (sz : Int) (attr : String)
    (t : AttrType) (b : BufferInfo) (hchar : t.datatype = TILEDB_VCF_CHAR)
    (hvar : t.var_len = 1) (hlist : t.list = 1) (hfill : fill_buffer w sz attr t = .ok b)
    (h0 : 0 ≤ sz) (hhi : sz < 2 ^ 63) :
    b.speculative_inner_length = some (sz - 1) ∧ b.offsets.map Buffer.size = some sz ∧
      (1 ≤ sz → sz < offsets_bytes (sz - 1)) := by
  obtain ⟨lo, _, harr⟩ := speculative_char_list_array w sz attr t b hchar hlist hfill
  obtain ⟨_, _, _, _, _, ho, _, _⟩ := fill_buffer_ok_props w sz attr t b hfill
  have hc : to_uint64 (Int.tdiv sz 1) = sz.toNat := by
    unfold to_uint64
    rw [Int.tdiv_eq_ediv h0 (by norm_num)]
    norm_num at hhi ⊢
    omega
  have hinner : to_int64 (uint64_sub sz.toNat 1) = sz - 1 := by
    rw [to_int64_uint64_sub_one sz.toNat (by norm_num at hhi ⊢; omega)]
    omega
  refine ⟨?_, ?_, ?_⟩
  · simp only [BufferInfo.speculative_inner_length, harr, Option.bind, ArrowArray.values,
      Option.map, ArrowArray.length, hc, hinner]
  · rw [ho, if_pos hvar]; rfl
  · intro h1
    unfold offsets_bytes
    omega

/-- C14 fails on the code. With a budget of 1 MB set through
`set_memory_budget` and the attribute `alleles` (char, variable-length,
list), `alloc_buffers` succeeds with 0-byte regions and the inner string
array of the speculative array has length -1: `num_offsets - 1` wrapped
around on `uint64_t`. With a budget of 0 (10-byte regions) the inner array
has 9 entries, whose 10 offsets take 40 bytes of a value-offsets region of 10
bytes; with the default budget of 2048 MB the offsets take four times the
capacity of the region as well. -/
theorem C14_speculative_array_ill_formed :
    (alloc_buffers sample_world
        (set_memory_budget sample_world { Reader.new with attributes_ := ["alleles"] } 1).1
        true).2 = .ok () ∧
      (alloc_buffers sample_world
        (set_memory_budget sample_world { Reader.new with attributes_ := ["alleles"] } 1).1
        true).1.buffers_.map BufferInfo.speculative_inner_length = [some (-1)] ∧
      (alloc_buffers sample_world
        (set_memory_budget sample_world { Reader.new with attributes_ := ["alleles"] } 0).1
        true).1.buffers_.map
          (fun b => (b.speculative_inner_length.map offsets_bytes, b.offsets.map Buffer.size))
        = [(some 40, some 10)] ∧
      (alloc_buffers sample_world
        (set_memory_budget sample_world { Reader.new with attributes_ := ["alleles"] } 2048).1
        true).1.buffers_.map
          (fun b => (b.speculative_inner_length.map offsets_bytes, b.offsets.map Buffer.size))
        = [(some 953505108, some 238376277)] :=
  ⟨rfl, by decide, by decide, by decide⟩
end tiledbvcfpy
